import Mathlib

/-!
# stun.c : TUN/TAP over TCP relay

A shallow embedding of `src/c/stun.c`: the bridge port pool
(`bridge_get_port`, `bridge_put_port`), the per-connection record
`client_data` with its deferred destruction (`client_data_free`,
`client_data_free_func`), the two readiness handlers (`client_net_func`,
`client_tun_func`) together with `readn_generic`, and the two accept
handlers (`server_func`, `tun_server`).

Conventions.
* Bytes, lengths and offsets are natural numbers; `int` values that can be
  negative (`bridge_port`, return codes, file descriptors) are integers.
* Global variables and the GLib main context are passed explicitly.
* System calls take their outcome from a script held in `Env`; every call is
  appended to `Env.trace`.
* Loops whose length depends on the environment carry a fuel argument; the
  handlers supply a fuel computed from the pending input and return `none`
  only if that fuel runs out.
-/

namespace Stun

/-! ## Bridge port pool (stun.c 15-39) -/

/-- The `static uint32_t br_count = 3;` of stun.c (never assigned afterwards). -/
def br_count : Nat := 3

/-- The initial value of `static bool br_port[4];` (zero initialised). -/
def br_port_init : List Bool := [false, false, false, false]

/-- The `for (i = 0; i < br_count; i++)` loop of `bridge_get_port`: `k` is the
number of iterations left (`br_count - i`), `i` the loop variable. -/
def bridge_get_port_loop (br_port : List Bool) : Nat → Nat → Int × List Bool
  | 0, _ => (-1, br_port)
  | k + 1, i =>
    if br_port.getD i false = false then ((i : Int), br_port.set i true)
    else bridge_get_port_loop br_port k (i + 1)

/-- The function `bridge_get_port`: returns the index and the new value of `br_port`. -/
def bridge_get_port (br_port : List Bool) : Int × List Bool :=
  bridge_get_port_loop br_port br_count 0

/-- The function `bridge_put_port`: the new value of `br_port`. -/
def bridge_put_port (br_port : List Bool) (index : Int) : List Bool :=
  if index < 0 ∨ index ≥ (br_count : Int) then br_port
  else br_port.set index.toNat false

/-! ## Environment of one connection: the socket and the device -/

/-- Value of `errno` for an interrupted system call. -/
def EINTR : Nat := 4

/-- Value of `errno` for a non-blocking call that would block. -/
def EAGAIN : Nat := 11

/-- What the next `read` on a descriptor finds: `data bs` are bytes that have
arrived (`data []` is end of file, a read of zero bytes), `fail e` makes the
call return `-1` with `errno = e`. -/
inductive RdEv where
  | data (bs : List Nat)
  | fail (errno : Nat)
  deriving DecidableEq, Repr

/-- What the next `write` on a descriptor does: `accept k` takes at most `k`
bytes of the request, `fail e` makes the call return `-1` with `errno = e`. -/
inductive WrEv where
  | accept (k : Nat)
  | fail (errno : Nat)
  deriving DecidableEq, Repr

/-- One system call as it was issued, with the value it returned. For
`net_read` the request is the offset into `net_buf` and the byte count. -/
inductive Call where
  | net_read (off cnt : Nat) (ret : Int)
  | tun_write (bs : List Nat) (ret : Int)
  | tun_read (cnt : Nat) (ret : Int)
  | net_write (bs : List Nat) (ret : Int)
  deriving DecidableEq, Repr

/-- The environment of a connection: upcoming outcomes of reads and writes on
the socket (`net_fd`) and on the device (`tun_fd`), and the calls made so far,
oldest first. An exhausted read script means "would block"; an exhausted
write script means the whole request is taken. -/
structure Env where
  net_in : List RdEv
  net_out : List WrEv
  tun_in : List RdEv
  tun_out : List WrEv
  trace : List Call
  deriving DecidableEq, Repr

/-- Result of a `read`: the bytes stored (return value is their number) or
`-1` with an `errno`. -/
inductive RdRes where
  | got (bs : List Nat)
  | err (errno : Nat)
  deriving DecidableEq, Repr

/-- The `ssize_t` value returned by the call. -/
def RdRes.len : RdRes → Int
  | .got bs => (bs.length : Int)
  | .err _ => -1

/-- Semantics of `read(net_fd, net_buf + off, cnt)` on the stream socket: a
request for zero bytes returns 0 at once; otherwise the call returns at most
`cnt` of the bytes that arrived and leaves the rest queued. -/
def net_read (env : Env) (off cnt : Nat) : RdRes × Env :=
  let r : RdRes × List RdEv :=
    if cnt = 0 then (.got [], env.net_in)
    else
      match env.net_in with
      | [] => (.err EAGAIN, [])
      | .fail e :: rest => (.err e, rest)
      | .data bs :: rest =>
        if bs.length ≤ cnt then (.got bs, rest)
        else (.got (bs.take cnt), .data (bs.drop cnt) :: rest)
  (r.1, { env with net_in := r.2, trace := env.trace ++ [.net_read off cnt r.1.len] })

/-- Semantics of `read(tun_fd, tun_buf, cnt)` on the packet device: one call
returns one frame, cut to `cnt` bytes. -/
def tun_read (env : Env) (cnt : Nat) : RdRes × Env :=
  let r : RdRes × List RdEv :=
    match env.tun_in with
    | [] => (.err EAGAIN, [])
    | .fail e :: rest => (.err e, rest)
    | .data bs :: rest => (.got (bs.take cnt), rest)
  (r.1, { env with tun_in := r.2, trace := env.trace ++ [.tun_read cnt r.1.len] })

/-- Return value of a `write` of `n` bytes under a write script, and the rest
of the script. -/
def sys_write (script : List WrEv) (n : Nat) : Int × List WrEv :=
  match script with
  | [] => ((n : Int), [])
  | .accept k :: rest => ((min k n : Nat), rest)
  | .fail _ :: rest => (-1, rest)

/-- Semantics of `write(net_fd, bs, len bs)`. -/
def net_write (env : Env) (bs : List Nat) : Int × Env :=
  let r := sys_write env.net_out bs.length
  (r.1, { env with net_out := r.2, trace := env.trace ++ [.net_write bs r.1] })

/-- Semantics of `write(tun_fd, bs, len bs)`. -/
def tun_write (env : Env) (bs : List Nat) : Int × Env :=
  let r := sys_write env.tun_out bs.length
  (r.1, { env with tun_out := r.2, trace := env.trace ++ [.tun_write bs r.1] })

/-- Bytes stored by a read at `buf + off`. A store that runs past the end of
the list extends it: the model keeps the bytes instead of faulting when a
store leaves the allocation. -/
def store (buf : List Nat) (off : Nat) (bs : List Nat) : List Nat :=
  buf.take off ++ bs ++ buf.drop (off + bs.length)

/-- The two bytes in memory of `htons(len)` stored in a `uint16_t`. -/
def htons (len : Nat) : List Nat :=
  [(len % 65536) / 256, len % 256]

/-- The value `ntohs(*(uint16_t *)buf)`. -/
def ntohs (buf : List Nat) : Nat :=
  (buf.getD 0 0 % 256) * 256 + buf.getD 1 0 % 256

/-- The requests of the device writes in a trace, oldest first. -/
def tun_frames : List Call → List (List Nat)
  | [] => []
  | .tun_write bs _ :: t => bs :: tun_frames t
  | _ :: t => tun_frames t

/-- The bytes the socket took over the writes in a trace, oldest first. -/
def net_sent : List Call → List Nat
  | [] => []
  | .net_write bs ret :: t => bs.take ret.toNat ++ net_sent t
  | _ :: t => net_sent t

/-- The socket reads in a trace as (offset, count) requests. -/
def net_requests : List Call → List (Nat × Nat)
  | [] => []
  | .net_read off cnt _ :: t => (off, cnt) :: net_requests t
  | _ :: t => net_requests t

/-! ## The GLib main context -/

/-- The part of the default main context the program depends on: how many
source ids were handed out (ids are positive and increase, and are taken as
unbounded naturals) and the idle sources waiting to be dispatched, as
(source id, callback data). -/
structure MainCtx where
  count : Nat
  idle : List (Nat × Nat)
  deriving DecidableEq, Repr

/-- Attaching a source (`g_source_attach`, `g_unix_fd_add`): the id and the new context. -/
def g_source_attach (m : MainCtx) : Nat × MainCtx :=
  (m.count + 1, { m with count := m.count + 1 })

/-- The call `g_idle_add(client_data_free_func, data)`. -/
def g_idle_add (m : MainCtx) (data : Nat) : Nat × MainCtx :=
  (m.count + 1, { count := m.count + 1, idle := m.idle ++ [(m.count + 1, data)] })

/-! ## Connection record (stun.c 103-124) -/

/-- The record `struct client_data`. Buffers are byte lists, `net_source` is
the id of the socket source, `net_sock` the accepted socket. -/
structure client_data where
  bridge_port : Int
  tun_fd : Int
  tun_buf : List Nat
  tun_buf_size : Nat
  net_fd : Int
  net_sock : Int
  net_buf : List Nat
  net_buf_size : Nat
  net_buf_offset : Nat
  net_buf_expect_len : Nat
  net_buf_expect_type : Int
  net_source : Nat
  tun_id : Nat
  free_id : Int
  deriving DecidableEq, Repr

/-- The function `client_data_free` (stun.c 150-157); `p` is the address of `data`. -/
def client_data_free (ctx : MainCtx) (p : Nat) (data : client_data) : MainCtx × client_data :=
  if data.free_id > 0 then (ctx, data)
  else
    let r := g_idle_add ctx p
    (r.2, { data with free_id := (r.1 : Int) })

/-- The function `client_data_new` (stun.c 311-339): `g_new0` zeroes the
record, the two buffers of 4096 bytes are taken as zero filled. -/
def client_data_new (ctx : MainCtx) (client : Int) (tun_fd : Int) (port_index : Int) :
    client_data × MainCtx :=
  let s := g_source_attach ctx
  let t := g_source_attach s.2
  ({ bridge_port := port_index
     tun_fd := tun_fd
     tun_buf := List.replicate 4096 0
     tun_buf_size := 4096
     net_fd := client
     net_sock := client
     net_buf := List.replicate 4096 0
     net_buf_size := 4096
     net_buf_offset := 0
     net_buf_expect_len := 2
     net_buf_expect_type := 0
     net_source := s.1
     tun_id := t.1
     free_id := 0 }, t.2)

/-! ## Reading from the socket (stun.c 159-183, 208-263) -/

/-- Result of `readn_generic`: the return value, and the buffer, `*offset`
and `*expect_len` as the call leaves them. -/
structure ReadN where
  ret : Int
  env : Env
  buf : List Nat
  offset : Nat
  expect_len : Nat
  deriving DecidableEq, Repr

/-- The `for (;;)` loop of `readn_generic`, with fuel. -/
def readn_loop : Nat → Env → List Nat → Nat → Nat → Option ReadN
  | 0, _, _, _, _ => none
  | fuel + 1, env, buf, offset, expect_len =>
    let r := net_read env offset expect_len
    match r.1 with
    | .err e =>
      if e = EINTR then readn_loop fuel r.2 buf offset expect_len
      else some ⟨-(e : Int), r.2, buf, offset, expect_len⟩
    | .got bs =>
      if bs.length = 0 then some ⟨0, r.2, buf, offset, expect_len⟩
      else if expect_len - bs.length = 0 then
        some ⟨1, r.2, store buf offset bs, offset + bs.length, expect_len - bs.length⟩
      else
        readn_loop fuel r.2 (store buf offset bs) (offset + bs.length) (expect_len - bs.length)

/-- The function `readn_generic` on the socket: every turn of the loop but the
last uses up one entry of the read script, so its length plus one is enough fuel. -/
def readn_generic (env : Env) (buf : List Nat) (offset expect_len : Nat) : Option ReadN :=
  readn_loop (env.net_in.length + 1) env buf offset expect_len

/-- State a handler works on: the connection record, the main context and the environment. -/
structure Conn where
  c : client_data
  ctx : MainCtx
  env : Env
  deriving DecidableEq, Repr

/-- Control after a block of a handler: the handler returned (`true` is
`G_SOURCE_CONTINUE`, `false` is `G_SOURCE_REMOVE`), or control goes on. -/
inductive Step where
  | ret (g : Bool) (s : Conn)
  | go (s : Conn)
  deriving DecidableEq, Repr

/-- The `error:` label of `client_net_func` (stun.c 259-262). -/
def net_error (p : Nat) (s : Conn) : Step :=
  let r := client_data_free s.ctx p s.c
  .ret false { s with ctx := r.1, c := r.2 }

/-- The block `if (!client->net_buf_expect_type) { ... }` (stun.c 214-229). -/
def net_header (p : Nat) (s : Conn) : Option Step :=
  if s.c.net_buf_expect_type = 0 then
    match readn_generic s.env s.c.net_buf s.c.net_buf_offset s.c.net_buf_expect_len with
    | none => none
    | some r =>
      let c1 := { s.c with net_buf := r.buf, net_buf_offset := r.offset,
                           net_buf_expect_len := r.expect_len }
      if r.ret ≤ 0 then
        if r.ret = -(EAGAIN : Int) then some (.ret true { s with c := c1, env := r.env })
        else some (net_error p { s with c := c1, env := r.env })
      else
        some (.go { s with
          c := { c1 with net_buf_expect_type := 1, net_buf_offset := 0,
                         net_buf_expect_len := ntohs c1.net_buf }
          env := r.env })
  else some (.go s)

/-- The block `if (client->net_buf_expect_type) { ... }` and the
`return G_SOURCE_CONTINUE` after it (stun.c 231-257); `go` is `goto next`. -/
def net_payload (p : Nat) (s : Conn) : Option Step :=
  if s.c.net_buf_expect_type ≠ 0 then
    match readn_generic s.env s.c.net_buf s.c.net_buf_offset s.c.net_buf_expect_len with
    | none => none
    | some r =>
      let c1 := { s.c with net_buf := r.buf, net_buf_offset := r.offset,
                           net_buf_expect_len := r.expect_len }
      if r.ret ≤ 0 then
        if r.ret = -(EAGAIN : Int) then some (.ret true { s with c := c1, env := r.env })
        else some (net_error p { s with c := c1, env := r.env })
      else
        let w := tun_write r.env (c1.net_buf.take c1.net_buf_offset)
        if w.1 ≤ 0 then some (net_error p { s with c := c1, env := w.2 })
        else
          some (.go { s with
            c := { c1 with net_buf_expect_type := 0, net_buf_offset := 0,
                           net_buf_expect_len := 2 }
            env := w.2 })
  else some (.ret true s)

/-- The body of `client_net_func` from the label `next:`, with fuel for `goto next`. -/
def client_net_loop (p : Nat) : Nat → Conn → Option (Bool × Conn)
  | 0, _ => none
  | fuel + 1, s =>
    match net_header p s with
    | none => none
    | some (.ret g s1) => some (g, s1)
    | some (.go s1) =>
      match net_payload p s1 with
      | none => none
      | some (.ret g s2) => some (g, s2)
      | some (.go s2) => client_net_loop p fuel s2

/-- Number of bytes queued in a read script. -/
def rx_bytes : List RdEv → Nat
  | [] => 0
  | .data bs :: t => bs.length + rx_bytes t
  | .fail _ :: t => rx_bytes t

/-- The handler `client_net_func` for the connection at address `p`: every
`goto next` follows a frame of at least one byte, so the number of queued
bytes plus one is enough fuel. -/
def client_net_func (p : Nat) (s : Conn) : Option (Bool × Conn) :=
  client_net_loop p (rx_bytes s.env.net_in + 1) s

/-- The socket source is dispatched `n` times; it is not dispatched again once
the handler returned `G_SOURCE_REMOVE`. -/
def net_dispatch (p : Nat) : Nat → Conn → Option (Bool × Conn)
  | 0, s => some (true, s)
  | n + 1, s =>
    match client_net_func p s with
    | none => none
    | some (false, s1) => some (false, s1)
    | some (true, s1) => net_dispatch p n s1

/-- The read script of a socket that receives the given deliveries, each one
followed by a read that would block. -/
def deliveries : List (List Nat) → List RdEv
  | [] => []
  | d :: ds => .data d :: .fail EAGAIN :: deliveries ds

/-- A write script under which the next write of at least one byte returns a
positive count. -/
def wr_ok : List WrEv → Bool
  | [] => true
  | .accept k :: _ => decide (0 < k)
  | .fail _ :: _ => false

/-- The handler `client_net_func` from its second block on (stun.c 231), with
`f` turns of `goto next` left. -/
def net_tail (p : Nat) (f : Nat) (s : Conn) : Option (Bool × Conn) :=
  match net_payload p s with
  | none => none
  | some (.ret g s2) => some (g, s2)
  | some (.go s2) => client_net_loop p f s2

/-- The decode fields of a record that has consumed the first `k` bytes of the
stream `htons (len pl) ++ pl`, for `k < len pl + 2`. -/
def Mid (pl : List Nat) (k : Nat) (c : client_data) : Prop :=
  if k < 2 then
    c.net_buf_expect_type = 0 ∧ c.net_buf_offset = k ∧ c.net_buf_expect_len = 2 - k ∧
      c.net_buf.take k = (htons pl.length ++ pl).take k
  else
    c.net_buf_expect_type = 1 ∧ c.net_buf_offset = k - 2 ∧
      c.net_buf_expect_len = pl.length + 2 - k ∧ c.net_buf.take (k - 2) = pl.take (k - 2)

/-- What one dispatch of the socket handler leaves behind when it was given
the next bytes of the stream of the frame `pl`; `tl` is what is still to come,
`k` the number of bytes consumed afterwards. The context `ctx0`, the
`free_id`, the device frames `fr0` and the device script `tout` are those
before the dispatch. -/
def Post (pl : List Nat) (k : Nat) (tl : List Nat) (rest : List RdEv) (ctx0 : MainCtx)
    (fid : Int) (fr0 : List (List Nat)) (tout : List WrEv) (s : Conn) : Prop :=
  s.ctx = ctx0 ∧ s.c.free_id = fid ∧ s.env.net_in = rest ∧
  (tl ≠ [] → Mid pl k s.c ∧ tun_frames s.env.trace = fr0 ∧ s.env.tun_out = tout) ∧
  (tl = [] → s.c.net_buf_expect_type = 0 ∧ s.c.net_buf_offset = 0 ∧
    s.c.net_buf_expect_len = 2 ∧ tun_frames s.env.trace = fr0 ++ [pl])

/-! ## Reading from the device (stun.c 265-309) -/

/-- The `error:` label of `client_tun_func` (stun.c 305-308). -/
def tun_error (p : Nat) (s : Conn) : Bool × Conn :=
  let c1 := { s.c with tun_id := 0 }
  let r := client_data_free s.ctx p c1
  (false, { s with ctx := r.1, c := r.2 })

/-- The `for (;;)` loop of `client_tun_func`, with fuel. -/
def client_tun_loop (p : Nat) : Nat → Conn → Option (Bool × Conn)
  | 0, _ => none
  | fuel + 1, s =>
    let r := tun_read s.env s.c.tun_buf_size
    match r.1 with
    | .err e =>
      if e = EINTR then client_tun_loop p fuel { s with env := r.2 }
      else if e = EAGAIN then some (true, { s with env := r.2 })
      else some (tun_error p { s with env := r.2 })
    | .got bs =>
      let c1 := { s.c with tun_buf := store s.c.tun_buf 0 bs }
      if bs.length = 0 then some (tun_error p { s with c := c1, env := r.2 })
      else
        let w := net_write r.2 (htons bs.length)
        if w.1 ≤ 0 then some (tun_error p { s with c := c1, env := w.2 })
        else
          let v := net_write w.2 (c1.tun_buf.take bs.length)
          if v.1 ≤ 0 then some (tun_error p { s with c := c1, env := v.2 })
          else client_tun_loop p fuel { s with c := c1, env := v.2 }

/-- The handler `client_tun_func` for the connection at address `p`: every turn
of the loop uses up one entry of the device script. -/
def client_tun_func (p : Nat) (s : Conn) : Option (Bool × Conn) :=
  client_tun_loop p (s.env.tun_in.length + 1) s

/-- A socket write script under which every write of at most 4096 bytes is taken in full. -/
def takes_all (script : List WrEv) : Bool :=
  script.all (fun e => match e with
    | .accept k => decide (4096 ≤ k)
    | .fail _ => false)

/-- The calls `client_tun_func` makes for one frame that the socket takes in full. -/
def frame_calls (f : List Nat) : List Call :=
  [.tun_read 4096 f.length, .net_write [f.length / 256, f.length % 256] 2,
   .net_write f f.length]

/-- The calls for a sequence of frames. -/
def frames_calls : List (List Nat) → List Call
  | [] => []
  | f :: fs => frame_calls f ++ frames_calls fs

/-- The wire format of a sequence of frames: for each one the big-endian
16-bit length, then the bytes. -/
def frames_wire : List (List Nat) → List Nat
  | [] => []
  | f :: fs => [f.length / 256, f.length % 256] ++ f ++ frames_wire fs

/-- The bytes the socket took during a run of a handler that started with an empty trace. -/
def wire (r : Option (Bool × Conn)) : List Nat :=
  match r with
  | some x => net_sent x.2.env.trace
  | none => []

/-- An environment in which nothing is scripted. -/
def quiet : Env := ⟨[], [], [], [], []⟩

/-- A record as `client_data_new` makes it (socket 5, device 6, no bridge port). -/
def sample_client : client_data := (client_data_new ⟨0, []⟩ 5 6 (-1)).1

/-- A connection with the sample record, two sources attached, and the given environment. -/
def sample_conn (env : Env) : Conn := ⟨sample_client, ⟨2, []⟩, env⟩

/-! ## The server: accept handlers and destruction (stun.c 126-148, 341-420) -/

/-- Calls that release a resource. `g_free_buf` is `g_free` of one of the two
buffers of a record (`true` for `tun_buf`, `false` for `net_buf`), `g_free`
is `g_free` of the record at address `p`. -/
inductive Op where
  | bridge_put_port (index : Int)
  | g_source_destroy (source : Nat)
  | g_source_unref (source : Nat)
  | g_object_unref (sock : Int)
  | g_source_remove (id : Nat)
  | close (fd : Int)
  | g_free_buf (tun : Bool)
  | g_free (p : Nat)
  deriving DecidableEq, Repr

/-- The state of the server process: the globals `br_port` and `tun_client`,
the main context, the `client_data` records that are allocated (by address),
the next fresh address, the log of releasing calls (each with the record whose
destruction made it, `none` for a call made by an accept handler), and
whether `g_main_loop_quit` was called. -/
structure World where
  br_port : List Bool
  tun_client : Int
  ctx : MainCtx
  heap : Nat → Option client_data
  next_ptr : Nat
  log : List (Option Nat × Op)
  quit : Bool

/-- The state at the start of `main`. -/
def World.init : World :=
  { br_port := br_port_init, tun_client := 0, ctx := ⟨0, []⟩, heap := fun _ => none,
    next_ptr := 0, log := [], quit := false }

/-- The callback `client_data_free_func` (stun.c 126-148) on the record at
address `data`; it returns `G_SOURCE_REMOVE`. -/
def client_data_free_func (w : World) (data : Nat) : World :=
  match w.heap data with
  | none => w
  | some c =>
    { w with
      tun_client := if c.bridge_port = -1 then 0 else w.tun_client
      br_port := bridge_put_port w.br_port c.bridge_port
      heap := Function.update w.heap data none
      log := w.log ++
        [(some data, .bridge_put_port c.bridge_port),
         (some data, .g_source_destroy c.net_source),
         (some data, .g_source_unref c.net_source),
         (some data, .g_object_unref c.net_sock)] ++
        (if c.tun_id > 0 then [(some data, .g_source_remove c.tun_id)] else []) ++
        [(some data, .close c.tun_fd), (some data, .g_free_buf true),
         (some data, .g_free_buf false), (some data, .g_free data)] }

/-- The handler `server_func` (stun.c 341-381): `client` is the result of
`g_socket_accept`, `tun_fd` the result of `tun_alloc` when it is called. -/
def server_func (w : World) (client : Option Int) (tun_fd : Int) : Bool × World :=
  match client with
  | none => (false, { w with quit := true })
  | some client =>
    let r := bridge_get_port w.br_port
    if r.1 < 0 then
      (true, { w with br_port := r.2, log := w.log ++ [(none, .g_object_unref client)] })
    else if tun_fd < 0 then
      (true, { w with
        br_port := bridge_put_port r.2 r.1
        log := w.log ++ [(none, .bridge_put_port r.1), (none, .g_object_unref client)] })
    else
      let n := client_data_new w.ctx client tun_fd r.1
      (true, { w with
        br_port := r.2
        ctx := n.2
        heap := Function.update w.heap w.next_ptr (some n.1)
        next_ptr := w.next_ptr + 1 })

/-- The handler `tun_server` (stun.c 383-420). -/
def tun_server (w : World) (client : Option Int) (tun_fd : Int) : Bool × World :=
  match client with
  | none => (false, { w with quit := true })
  | some client =>
    if w.tun_client > 0 then
      (true, { w with log := w.log ++ [(none, .g_object_unref client)] })
    else if tun_fd < 0 then
      (true, { w with log := w.log ++ [(none, .g_object_unref client)] })
    else
      let n := client_data_new w.ctx client tun_fd (-1)
      (true, { w with
        ctx := n.2
        heap := Function.update w.heap w.next_ptr (some n.1)
        next_ptr := w.next_ptr + 1
        tun_client := 1 })

/-- A handler of the connection at `p` takes its error path and calls `client_data_free`. -/
def World.teardown (w : World) (p : Nat) : World :=
  match w.heap p with
  | none => w
  | some c =>
    let r := client_data_free w.ctx p c
    { w with ctx := r.1, heap := Function.update w.heap p (some r.2) }

/-- The main loop dispatches the idle source `id`: its callback
`client_data_free_func` runs on the data it was added with and, as the
callback returns `G_SOURCE_REMOVE`, the source is removed. -/
def World.dispatch_idle (w : World) (id : Nat) : World :=
  match w.ctx.idle.find? (fun e => e.1 = id) with
  | none => w
  | some e =>
    let w1 := client_data_free_func w e.2
    { w1 with ctx := { w1.ctx with idle := w1.ctx.idle.filter (fun e => e.1 ≠ id) } }

/-- What the main loop of the server can do next. -/
inductive Ev where
  | bridge_accept (client : Option Int) (tun_fd : Int)
  | tunnel_accept (client : Option Int) (tun_fd : Int)
  | teardown (p : Nat)
  | idle (id : Nat)
  deriving DecidableEq, Repr

/-- One event of the server. -/
def World.step (w : World) : Ev → World
  | .bridge_accept client tun_fd => (server_func w client tun_fd).2
  | .tunnel_accept client tun_fd => (tun_server w client tun_fd).2
  | .teardown p => w.teardown p
  | .idle id => w.dispatch_idle id

/-- A sequence of events, first to last. -/
def World.run (w : World) : List Ev → World
  | [] => w
  | e :: es => (w.step e).run es

/-- Number of logged calls made by the destruction of record `p` that satisfy `f`. -/
def World.calls (w : World) (p : Nat) (f : Op → Bool) : Nat :=
  (w.log.filter (fun e => decide (e.1 = some p) && f e.2)).length

/-- Test for a `bridge_put_port` call. -/
def Op.is_put : Op → Bool
  | .bridge_put_port _ => true
  | _ => false

/-- Test for a `close` call (the device). -/
def Op.is_close : Op → Bool
  | .close _ => true
  | _ => false

/-- Test for a `g_object_unref` call (the socket). -/
def Op.is_unref : Op → Bool
  | .g_object_unref _ => true
  | _ => false

/-- The `bridge_port` of the record at address `p`, if one is allocated there. -/
def World.ports (w : World) (p : Nat) : Option Int :=
  (w.heap p).map (fun c => c.bridge_port)

/-- The events of a run lead from the initial state to `w`. -/
def Reachable (w : World) : Prop :=
  ∃ es : List Ev, w = World.init.run es

/-- A server state after three bridge accepts (the second with a failed device
allocation), two teardown requests for the first connection and its
destruction. -/
def sample_pool_world : World :=
  World.init.run [.bridge_accept (some 7) 8, .bridge_accept (some 9) (-2),
    .bridge_accept (some 10) 11, .teardown 0, .teardown 0, .idle 5]

/-- A server state with one bridged connection (socket 7, device 8, port 0). -/
def sample_bridge_world : World :=
  World.init.run [.bridge_accept (some 7) 8]

/-- A server state with one tunnel connection whose teardown was requested,
after a second tunnel client was turned away. -/
def sample_tunnel_world : World :=
  World.init.run [.tunnel_accept (some 7) 8, .tunnel_accept (some 9) 10, .teardown 0]

/-- Invariant of the pool and the tunnel flag: the slots below `br_count` that
are set are the `bridge_port` values of the allocated records, no two records
have the same `bridge_port`, and `tun_client` is 1 exactly when a record with
`bridge_port = -1` is allocated. -/
structure PoolInv (w : World) : Prop where
  len : w.br_port.length = 4
  top : w.br_port.getD 3 false = false
  port_range : ∀ p b, w.ports p = some b → b = -1 ∨ (0 ≤ b ∧ b < 3)
  occupied : ∀ i : Nat, i < 3 →
    (w.br_port.getD i false = true ↔ ∃ p, w.ports p = some (i : Int))
  port_unique : ∀ p q b, w.ports p = some b → w.ports q = some b → p = q
  tun_flag : w.tun_client = 0 ∨ w.tun_client = 1
  tun_live : w.tun_client = 1 ↔ ∃ p, w.ports p = some (-1)

/-- Invariant of the scheduler and the log: an idle source is pending for a
record exactly when its `free_id` is positive, at most one per record, and
the destruction of a record has made each releasing call once if the record
is gone and never if it is allocated. -/
structure SchedInv (w : World) : Prop where
  fresh : ∀ p, w.next_ptr ≤ p → w.heap p = none
  idle_live : ∀ e ∈ w.ctx.idle, ∃ c, w.heap e.2 = some c ∧ c.free_id = (e.1 : Int)
  idle_pos : ∀ e ∈ w.ctx.idle, 0 < e.1
  idle_le : ∀ e ∈ w.ctx.idle, e.1 ≤ w.ctx.count
  idle_ids : (w.ctx.idle.map (fun e => e.1)).Nodup
  idle_ptrs : (w.ctx.idle.map (fun e => e.2)).Nodup
  free_sched : ∀ p c, w.heap p = some c → 0 < c.free_id → (c.free_id.toNat, p) ∈ w.ctx.idle
  puts : ∀ p, w.calls p Op.is_put = if p < w.next_ptr ∧ w.heap p = none then 1 else 0
  closes : ∀ p, w.calls p Op.is_close = if p < w.next_ptr ∧ w.heap p = none then 1 else 0
  unrefs : ∀ p, w.calls p Op.is_unref = if p < w.next_ptr ∧ w.heap p = none then 1 else 0

/-- Invariant of the server state. -/
def Inv (w : World) : Prop := PoolInv w ∧ SchedInv w

/-! ## Theorems: the port pool -/

theorem getD_set_self (l : List Bool) (i : Nat) (b : Bool) (h : i < l.length) :
    (l.set i b).getD i false = b := by
  simp [List.getD_eq_getElem?_getD, List.getElem?_set, h]

theorem getD_set_other (l : List Bool) (i j : Nat) (b : Bool) (h : j ≠ i) :
    (l.set i b).getD j false = l.getD j false := by
  simp [List.getD_eq_getElem?_getD, List.getElem?_set, Ne.symm h]

/-- The scan started at `i` with `k` turns left, all slots below `i` being
occupied: it stops at the lowest free slot below `i + k`, or finds none. -/
theorem bridge_get_port_loop_spec (br_port : List Bool) :
    ∀ k i, (∀ j, j < i → br_port.getD j false = true) →
      (∃ m, i ≤ m ∧ m < i + k ∧ br_port.getD m false = false ∧
          (∀ j, j < m → br_port.getD j false = true) ∧
          bridge_get_port_loop br_port k i = ((m : Int), br_port.set m true)) ∨
      ((∀ j, j < i + k → br_port.getD j false = true) ∧
          bridge_get_port_loop br_port k i = (-1, br_port)) := by
  intro k
  induction k with
  | zero =>
    intro i h
    right
    exact ⟨by simpa using h, rfl⟩
  | succ k ih =>
    intro i h
    by_cases hi : br_port.getD i false = false
    · left
      refine ⟨i, le_refl _, by omega, hi, h, ?_⟩
      rw [bridge_get_port_loop, if_pos hi]
    · have hi1 : br_port.getD i false = true := by simpa using hi
      have h1 : ∀ j, j < i + 1 → br_port.getD j false = true := by
        intro j hj
        rcases Nat.lt_succ_iff_lt_or_eq.mp hj with hlt | heq
        · exact h j hlt
        · rw [heq]; exact hi1
      rcases ih (i + 1) h1 with ⟨m, hm1, hm2, hm3, hm4, hm5⟩ | ⟨hall, hres⟩
      · left
        refine ⟨m, by omega, by omega, hm3, hm4, ?_⟩
        rw [bridge_get_port_loop, if_neg hi, hm5]
      · right
        refine ⟨fun j hj => hall j (by omega), ?_⟩
        rw [bridge_get_port_loop, if_neg hi, hres]

/-- C6: `bridge_get_port` on any pool of four slots. If a slot below `br_count`
is free, the call returns the lowest free index, that slot becomes occupied
and every other slot keeps its value; if the `br_count` slots are all
occupied, the call returns -1 and the pool is unchanged. -/
theorem bridge_get_port_spec (br_port : List Bool) (hlen : br_port.length = 4) :
    ((∃ i, i < br_count ∧ br_port.getD i false = false) →
      ∃ i, i < br_count ∧ br_port.getD i false = false ∧
        (∀ j, j < i → br_port.getD j false = true) ∧
        (bridge_get_port br_port).1 = (i : Int) ∧
        (bridge_get_port br_port).2.getD i false = true ∧
        (bridge_get_port br_port).2.length = 4 ∧
        ∀ j, j ≠ i → (bridge_get_port br_port).2.getD j false = br_port.getD j false) ∧
    ((∀ i, i < br_count → br_port.getD i false = true) →
      bridge_get_port br_port = (-1, br_port)) := by
  have key := bridge_get_port_loop_spec br_port br_count 0 (fun j hj => absurd hj (Nat.not_lt_zero j))
  constructor
  · rintro ⟨i0, hi0, hfree⟩
    rcases key with ⟨m, _, hm2, hm3, hm4, hm5⟩ | ⟨hall, _⟩
    · have hm : m < br_count := by omega
      have hb : m < br_port.length := by rw [hlen]; simp [br_count] at hm; omega
      refine ⟨m, hm, hm3, hm4, ?_, ?_, ?_, ?_⟩
      · simp [bridge_get_port, hm5]
      · simp only [bridge_get_port, hm5]
        exact getD_set_self br_port m true hb
      · simp [bridge_get_port, hm5, hlen]
      · intro j hj
        simp only [bridge_get_port, hm5]
        exact getD_set_other br_port m j true hj
    · have := hall i0 (by omega)
      rw [hfree] at this
      exact absurd this (by decide)
  · intro hall
    rcases key with ⟨m, _, hm2, hm3, _, _⟩ | ⟨_, hres⟩
    · have := hall m (by omega)
      rw [hm3] at this
      exact absurd this (by decide)
    · exact hres

theorem bridge_get_port_spec_witness :
    [true, false, true, false].length = 4 ∧
    (∃ i, i < br_count ∧ [true, false, true, false].getD i false = false) ∧
    (∃ i, i < br_count ∧ [true, false, true, false].getD i false = false ∧
        (∀ j, j < i → [true, false, true, false].getD j false = true) ∧
        (bridge_get_port [true, false, true, false]).1 = (i : Int) ∧
        (bridge_get_port [true, false, true, false]).2.getD i false = true ∧
        (bridge_get_port [true, false, true, false]).2.length = 4 ∧
        ∀ j, j ≠ i → (bridge_get_port [true, false, true, false]).2.getD j false =
          [true, false, true, false].getD j false) ∧
    (∀ i, i < br_count → [true, true, true, false].getD i false = true) ∧
    bridge_get_port [true, true, true, false] = (-1, [true, true, true, false]) :=
  ⟨by decide, ⟨1, by decide, by decide⟩,
    (bridge_get_port_spec [true, false, true, false] (by decide)).1
      ⟨1, by decide, by decide⟩,
    by decide,
    (bridge_get_port_spec [true, true, true, false] (by decide)).2 (by decide)⟩

/-- `bridge_put_port` with an index outside `[0, br_count)` returns at once. -/
theorem bridge_put_port_out_of_range (br_port : List Bool) (index : Int)
    (h : index < 0 ∨ (br_count : Int) ≤ index) : bridge_put_port br_port index = br_port := by
  simp [bridge_put_port, h]

/-- C7: with `br_count = 3` and an empty pool, three calls of `bridge_get_port`
return 0, 1 and 2 and a fourth returns -1; from the full pool, after
`bridge_put_port i` for `i` in 0, 1, 2 the next `bridge_get_port` returns `i`;
`bridge_put_port` with an index outside `[0, br_count)` changes nothing. -/
theorem pool_exhaustion_and_reuse :
    br_count = 3 ∧
    bridge_get_port br_port_init = (0, [true, false, false, false]) ∧
    bridge_get_port [true, false, false, false] = (1, [true, true, false, false]) ∧
    bridge_get_port [true, true, false, false] = (2, [true, true, true, false]) ∧
    bridge_get_port [true, true, true, false] = (-1, [true, true, true, false]) ∧
    (∀ i : Nat, i < 3 →
      (bridge_get_port (bridge_put_port [true, true, true, false] (i : Int))).1 = (i : Int) ∧
      (bridge_get_port (bridge_put_port [true, true, true, false] (i : Int))).2 =
        [true, true, true, false]) ∧
    (∀ (br_port : List Bool) (index : Int), index < 0 ∨ (br_count : Int) ≤ index →
      bridge_put_port br_port index = br_port) := by
  refine ⟨rfl, by decide, by decide, by decide, by decide, ?_, ?_⟩
  · intro i hi
    interval_cases i <;> decide
  · intro br_port index h
    exact bridge_put_port_out_of_range br_port index h

theorem pool_exhaustion_and_reuse_witness :
    (bridge_get_port (bridge_put_port [true, true, true, false] ((1 : Nat) : Int))).1 = ((1 : Nat) : Int) ∧
    bridge_put_port [true, false, true, false] 3 = [true, false, true, false] ∧
    bridge_put_port [true, false, true, false] (-1) = [true, false, true, false] :=
  ⟨(pool_exhaustion_and_reuse.2.2.2.2.2.1 1 (by decide)).1,
   pool_exhaustion_and_reuse.2.2.2.2.2.2 [true, false, true, false] 3 (by decide),
   pool_exhaustion_and_reuse.2.2.2.2.2.2 [true, false, true, false] (-1) (by decide)⟩

/-! ## Theorems: `readn_generic` on the shapes of input the claims use -/

theorem readn_generic_eagain (env : Env) (rest : List RdEv) (buf : List Nat) (off e : Nat)
    (hin : env.net_in = .fail EAGAIN :: rest) (he : 0 < e) :
    readn_generic env buf off e =
      some ⟨-(EAGAIN : Int),
        { env with net_in := rest, trace := env.trace ++ [.net_read off e (-1)] },
        buf, off, e⟩ := by
  have he0 : e ≠ 0 := by omega
  simp [readn_generic, readn_loop, net_read, hin, he0, RdRes.len, EAGAIN, EINTR]

theorem readn_generic_zero (env : Env) (buf : List Nat) (off : Nat) :
    readn_generic env buf off 0 =
      some ⟨0, { env with trace := env.trace ++ [.net_read off 0 0] }, buf, off, 0⟩ := by
  simp [readn_generic, readn_loop, net_read, RdRes.len]

theorem readn_generic_short (env : Env) (d : List Nat) (rest : List RdEv) (buf : List Nat)
    (off e : Nat) (hin : env.net_in = .data d :: .fail EAGAIN :: rest) (hd : d ≠ [])
    (hlt : d.length < e) :
    readn_generic env buf off e =
      some ⟨-(EAGAIN : Int),
        { env with
          net_in := rest
          trace := env.trace ++ [.net_read off e d.length,
            .net_read (off + d.length) (e - d.length) (-1)] },
        store buf off d, off + d.length, e - d.length⟩ := by
  have he0 : e ≠ 0 := by omega
  have hd0 : d.length ≠ 0 := by
    intro h; exact hd (List.length_eq_zero.mp h)
  have hle : d.length ≤ e := by omega
  have hsub : e - d.length ≠ 0 := by omega
  have hsub2 : ¬ e ≤ d.length := by omega
  simp [readn_generic, readn_loop, net_read, hin, he0, hd0, hle, hsub, hsub2, RdRes.len,
    EAGAIN, EINTR, hd]

theorem readn_generic_full (env : Env) (d : List Nat) (rest : List RdEv) (buf : List Nat)
    (off e : Nat) (hin : env.net_in = .data d :: rest) (he : 0 < e) (hle : e ≤ d.length) :
    readn_generic env buf off e =
      some ⟨1,
        { env with
          net_in := if d.length ≤ e then rest else .data (d.drop e) :: rest
          trace := env.trace ++ [.net_read off e e] },
        store buf off (d.take e), off + e, 0⟩ := by
  have he0 : e ≠ 0 := by omega
  by_cases hde : d.length ≤ e
  · have heq : d.length = e := by omega
    have hd0 : d ≠ [] := by
      intro h; rw [h] at heq; simp at heq; omega
    simp [readn_generic, readn_loop, net_read, hin, he0, hde, RdRes.len, heq, hd0]
    rw [← heq]; simp
  · have hmin : min e d.length = e := by omega
    simp [readn_generic, readn_loop, net_read, hin, he0, hde, RdRes.len, hmin, hle]

/-! ## Theorems: decoding one frame from fragments -/

theorem tun_frames_append (a b : List Call) :
    tun_frames (a ++ b) = tun_frames a ++ tun_frames b := by
  induction a with
  | nil => rfl
  | cons x t ih => cases x <;> simp [tun_frames, ih]

theorem net_sent_append (a b : List Call) :
    net_sent (a ++ b) = net_sent a ++ net_sent b := by
  induction a with
  | nil => rfl
  | cons x t ih => cases x <;> simp [net_sent, ih]

theorem store_take (buf : List Nat) (off : Nat) (d : List Nat) :
    (store buf off d).take (off + d.length) = buf.take off ++ d := by
  unfold store
  by_cases h : off ≤ buf.length
  · have h1 : (buf.take off ++ d).length = off + d.length := by simp [h]
    rw [List.take_append_of_le_length (by omega)]
    rw [List.take_of_length_le (by omega)]
  · have h2 : buf.drop (off + d.length) = [] := List.drop_of_length_le (by omega)
    rw [h2, List.append_nil]
    apply List.take_of_length_le
    simp

theorem take_add_of_drop (l : List Nat) (a : Nat) (d tl : List Nat) (h : l.drop a = d ++ tl) :
    l.take (a + d.length) = l.take a ++ d := by
  by_cases hlen : a ≤ l.length
  · have h1 : l = l.take a ++ (d ++ tl) := by rw [← h, List.take_append_drop]
    have h3 : (l.take a).length = a := by simp [hlen]
    conv_lhs => rw [h1]
    rw [List.take_append_eq_append_take]
    simp [h3]
  · have h0 : l.drop a = [] := List.drop_of_length_le (by omega)
    rw [h0] at h
    have hd : d = [] := (List.append_eq_nil.mp h.symm).1
    subst hd
    simp

theorem ntohs_take (buf : List Nat) : ntohs (buf.take 2) = ntohs buf := by
  match buf with
  | [] => rfl
  | [_] => rfl
  | _ :: _ :: _ => rfl

theorem ntohs_htons (n : Nat) (h : n < 65536) : ntohs (htons n) = n := by
  simp only [ntohs, htons, List.getD_cons_zero, List.getD_cons_succ]
  omega

theorem sys_write_pos (script : List WrEv) (n : Nat) (hok : wr_ok script = true) (hn : 0 < n) :
    0 < (sys_write script n).1 := by
  match script, hok with
  | [], _ => simp [sys_write]; omega
  | .accept k :: _, hk =>
    simp [wr_ok] at hk
    simp [sys_write]
    try omega
  | .fail _ :: _, hk => simp [wr_ok] at hk

theorem net_tail_eagain (p f : Nat) (s : Conn) (rest : List RdEv)
    (ht : s.c.net_buf_expect_type ≠ 0) (hin : s.env.net_in = .fail EAGAIN :: rest)
    (he : 0 < s.c.net_buf_expect_len) :
    net_tail p f s = some (true, { s with
      env := { s.env with
        net_in := rest
        trace := s.env.trace ++
          [.net_read s.c.net_buf_offset s.c.net_buf_expect_len (-1)] } }) := by
  simp [net_tail, net_payload, ht,
    readn_generic_eagain s.env rest s.c.net_buf s.c.net_buf_offset s.c.net_buf_expect_len hin he,
    EAGAIN]

theorem net_header_eagain (p : Nat) (s : Conn) (rest : List RdEv)
    (ht : s.c.net_buf_expect_type = 0) (hin : s.env.net_in = .fail EAGAIN :: rest)
    (he : 0 < s.c.net_buf_expect_len) :
    net_header p s = some (.ret true { s with
      env := { s.env with
        net_in := rest
        trace := s.env.trace ++
          [.net_read s.c.net_buf_offset s.c.net_buf_expect_len (-1)] } }) := by
  simp [net_header, ht,
    readn_generic_eagain s.env rest s.c.net_buf s.c.net_buf_offset s.c.net_buf_expect_len hin he,
    EAGAIN]
  rcases s with ⟨⟨⟩, _, _⟩
  simp at ht ⊢
  exact ht.symm

theorem tun_write_pos (env : Env) (bs : List Nat) (hok : wr_ok env.tun_out = true)
    (hn : 0 < bs.length) : ¬ (tun_write env bs).1 ≤ 0 := by
  have := sys_write_pos env.tun_out bs.length hok hn
  simp only [tun_write]
  omega

theorem net_tail_data (p f : Nat) (pl : List Nat) (s : Conn) (d tl : List Nat)
    (rest : List RdEv) (ht : s.c.net_buf_expect_type = 1)
    (hoff : s.c.net_buf_offset < pl.length)
    (he : s.c.net_buf_expect_len = pl.length - s.c.net_buf_offset)
    (hbuf : s.c.net_buf.take s.c.net_buf_offset = pl.take s.c.net_buf_offset)
    (hin : s.env.net_in = .data d :: .fail EAGAIN :: rest) (hd : d ≠ [])
    (hstream : pl.drop s.c.net_buf_offset = d ++ tl)
    (htun : wr_ok s.env.tun_out = true) :
    ∃ s', net_tail p (f + 1) s = some (true, s') ∧
      Post pl (s.c.net_buf_offset + 2 + d.length) tl rest s.ctx s.c.free_id
        (tun_frames s.env.trace) s.env.tun_out s' := by
  obtain ⟨⟨bp, tfd, tb, tbs, nfd, ns, nb, nbs, off, e, ty, src, tid, fid⟩, ctx,
    ⟨nin, nout, tin, tout, tr⟩⟩ := s
  simp only at ht hoff he hbuf hin hstream htun ⊢
  subst ht hin
  have hlen : d.length + tl.length = pl.length - off := by
    have := congrArg List.length hstream
    simp at this
    omega
  have hdpos : 0 < d.length := List.length_pos.mpr hd
  have htk := take_add_of_drop pl off d tl hstream
  by_cases htl : tl = []
  · subst htl
    simp at hlen
    have he' : e = d.length := by omega
    subst he'
    have hR := readn_generic_full ⟨.data d :: .fail EAGAIN :: rest, nout, tin, tout, tr⟩ d
      (.fail EAGAIN :: rest) nb off d.length rfl (by omega) (by omega)
    simp at hR
    have hst : (store nb off d).take (off + d.length) = pl := by
      rw [store_take, hbuf, ← htk]
      exact List.take_of_length_le (by omega)
    have hplpos : 0 < pl.length := by omega
    have hW := tun_write_pos ⟨.fail EAGAIN :: rest, nout, tin, tout,
      tr ++ [.net_read off d.length d.length]⟩ pl htun hplpos
    have hH := net_header_eagain p
      ⟨⟨bp, tfd, tb, tbs, nfd, ns, store nb off d, nbs, 0, 2, 0, src, tid, fid⟩, ctx,
        (tun_write ⟨.fail EAGAIN :: rest, nout, tin, tout,
          tr ++ [.net_read off d.length d.length]⟩ pl).2⟩ rest rfl (by simp [tun_write])
        (by simp)
    simp only [net_tail, net_payload, hR]
    simp [hst, hW, client_net_loop, hH]
    simp [Post, tun_write, tun_frames_append, tun_frames]
  · have he' : d.length < e := by
      have : 0 < tl.length := List.length_pos.mpr htl
      omega
    have hR := readn_generic_short ⟨.data d :: .fail EAGAIN :: rest, nout, tin, tout, tr⟩ d
      rest nb off e rfl hd he'
    simp at hR
    simp only [net_tail, net_payload, hR]
    simp [EAGAIN]
    have h2 : off + 2 + d.length - 2 = off + d.length := by omega
    simp [Post, htl, Mid, tun_frames_append, tun_frames]
    refine ⟨by omega, by omega, by omega, ?_⟩
    rw [h2, store_take, hbuf, htk]

theorem htons_length (n : Nat) : (htons n).length = 2 := rfl

theorem drop_stream_ge (n : Nat) (pl : List Nat) (k : Nat) (h : 2 ≤ k) :
    (htons n ++ pl).drop k = pl.drop (k - 2) := by
  have h0 : (htons n).drop k = [] := List.drop_of_length_le (by rw [htons_length]; omega)
  rw [List.drop_append_eq_append_drop, htons_length, h0]
  rfl

theorem client_net_loop_succ (p f : Nat) (s : Conn) :
    client_net_loop p (f + 2) s =
      match net_header p s with
      | none => none
      | some (.ret g s1) => some (g, s1)
      | some (.go s1) => net_tail p (f + 1) s1 := by
  rw [client_net_loop]
  rfl

theorem net_step (p : Nat) (pl : List Nat) (hn1 : 0 < pl.length) (hn2 : pl.length < 65536)
    (s : Conn) (k : Nat) (d tl : List Nat) (rest : List RdEv)
    (hmid : Mid pl k s.c)
    (hin : s.env.net_in = .data d :: .fail EAGAIN :: rest) (hd : d ≠ [])
    (hstream : (htons pl.length ++ pl).drop k = d ++ tl)
    (htun : wr_ok s.env.tun_out = true) :
    ∃ s', client_net_func p s = some (true, s') ∧
      Post pl (k + d.length) tl rest s.ctx s.c.free_id (tun_frames s.env.trace)
        s.env.tun_out s' := by
  have hdpos : 0 < d.length := List.length_pos.mpr hd
  have hfuel : ∃ f, rx_bytes s.env.net_in + 1 = f + 2 := by
    refine ⟨d.length - 1 + rx_bytes rest, ?_⟩
    rw [hin]
    simp [rx_bytes]
    omega
  obtain ⟨f, hf⟩ := hfuel
  rw [client_net_func, hf, client_net_loop_succ]
  have hlen : d.length + tl.length = pl.length + 2 - k := by
    have := congrArg List.length hstream
    simp [htons_length] at this
    omega
  by_cases hk2 : k < 2
  · simp only [Mid, hk2, if_true] at hmid
    obtain ⟨ht, hoff, he, hbuf⟩ := hmid
    obtain ⟨⟨bp, tfd, tb, tbs, nfd, ns, nb, nbs, off, e, ty, src, tid, fid⟩, ctx,
      ⟨nin, nout, tin, tout, tr⟩⟩ := s
    simp only at ht hoff he hbuf hin htun hf ⊢
    subst ht hin hoff he
    by_cases hshort : d.length < 2 - off
    · have hR := readn_generic_short ⟨.data d :: .fail EAGAIN :: rest, nout, tin, tout, tr⟩ d
        rest nb off (2 - off) rfl hd hshort
      simp at hR
      have htl : tl ≠ [] := by
        intro h
        subst h
        simp at hlen
        omega
      simp only [net_header, hR]
      simp [EAGAIN]
      have hk' : off + d.length < 2 := by omega
      simp [Post, htl, Mid, hk', tun_frames_append, tun_frames]
      refine ⟨by omega, ?_⟩
      rw [store_take, hbuf, take_add_of_drop _ off d tl hstream]
    · have hle : 2 - off ≤ d.length := by omega
      have hR := readn_generic_full ⟨.data d :: .fail EAGAIN :: rest, nout, tin, tout, tr⟩ d
        (.fail EAGAIN :: rest) nb off (2 - off) rfl (by omega) hle
      simp at hR
      have hsplit : (htons pl.length ++ pl).drop off =
          d.take (2 - off) ++ (d.drop (2 - off) ++ tl) := by
        rw [hstream, ← List.append_assoc, List.take_append_drop]
      have htk := take_add_of_drop _ off _ _ hsplit
      have htl2 : (d.take (2 - off)).length = 2 - off := by simp [hle]
      have hB : (store nb off (d.take (2 - off))).take 2 = htons pl.length := by
        have := store_take nb off (d.take (2 - off))
        rw [htl2] at this htk
        have h2 : off + (2 - off) = 2 := by omega
        rw [h2] at this htk
        rw [this, hbuf, ← htk]
        rfl
      have hnt : ntohs (store nb off (d.take (2 - off))) = pl.length := by
        rw [← ntohs_take, hB, ntohs_htons _ hn2]
      simp only [net_header, hR]
      simp [hnt]
      by_cases hde : d.length ≤ 2 - off
      · have hT := net_tail_eagain p (f + 1)
          ⟨⟨bp, tfd, tb, tbs, nfd, ns, store nb off (d.take (2 - off)), nbs, 0, pl.length, 1,
            src, tid, fid⟩, ctx,
            ⟨.fail EAGAIN :: rest, nout, tin, tout, tr ++ [.net_read off (2 - off) (2 - off)]⟩⟩
          rest (by simp) rfl hn1
        have hcast : ((2 - off : Nat) : Int) = 2 - (off : Int) := by omega
        simp [hde, hcast] at hT ⊢
        rw [hT]
        have htl : tl ≠ [] := by
          intro h
          subst h
          simp at hlen
          omega
        have hk' : ¬ off + d.length < 2 := by omega
        have hk'' : off + d.length - 2 = 0 := by omega
        simp [Post, htl, Mid, hk', hk'', tun_frames_append, tun_frames]
        omega
      · have hd' : d.drop (2 - off) ≠ [] := by
          intro h
          have := congrArg List.length h
          simp at this
          omega
        have hs2 : pl.drop 0 = d.drop (2 - off) ++ tl := by
          have h1 := congrArg (List.drop (2 - off)) hstream
          rw [List.drop_drop, List.drop_append_of_le_length hle] at h1
          have h2 : 2 - off + off = 2 := by omega
          have h3 : off + (2 - off) = 2 := by omega
          simp only [h2, h3] at h1
          rw [← h1]
          rfl
        have hT := net_tail_data p f pl
          ⟨⟨bp, tfd, tb, tbs, nfd, ns, store nb off (d.take (2 - off)), nbs, 0, pl.length, 1,
            src, tid, fid⟩, ctx,
            ⟨.data (d.drop (2 - off)) :: .fail EAGAIN :: rest, nout, tin, tout,
              tr ++ [.net_read off (2 - off) (2 - off)]⟩⟩
          (d.drop (2 - off)) tl rest rfl hn1 rfl rfl rfl hd' hs2 htun
        have hcast : ((2 - off : Nat) : Int) = 2 - (off : Int) := by omega
        have hidx : 2 + (d.length - (2 - off)) = off + d.length := by omega
        simp [hde, hcast, tun_frames_append, tun_frames, hidx] at hT ⊢
        exact hT
  · have hk2' : 2 ≤ k := by omega
    simp only [Mid, hk2, if_false] at hmid
    obtain ⟨ht, hoff, he, hbuf⟩ := hmid
    have hH : net_header p s = some (.go s) := by
      simp [net_header, ht]
    rw [hH]
    simp only
    have hs2 : pl.drop s.c.net_buf_offset = d ++ tl := by
      rw [← hstream, hoff, drop_stream_ge _ _ _ hk2']
    have key := net_tail_data p f pl s d tl rest ht (by omega) (by omega) (by rw [hoff]; exact hbuf)
      hin hd hs2 htun
    have hidx : s.c.net_buf_offset + 2 + d.length = k + d.length := by omega
    rw [hidx] at key
    exact key

theorem net_dispatch_succ (p n : Nat) (s s1 : Conn) (h : client_net_func p s = some (true, s1)) :
    net_dispatch p (n + 1) s = net_dispatch p n s1 := by
  simp [net_dispatch, h]

/-- Decoding of one frame from any fragments: the record has consumed `k`
bytes of the stream and the deliveries `ds` bring the rest. -/
theorem net_dispatch_frame (p : Nat) (pl : List Nat) (hn1 : 0 < pl.length)
    (hn2 : pl.length < 65536) :
    ∀ (ds : List (List Nat)) (k : Nat) (s : Conn) (rest : List RdEv),
      Mid pl k s.c → (∀ d ∈ ds, d ≠ []) → ds ≠ [] →
      (htons pl.length ++ pl).drop k = ds.flatten →
      s.env.net_in = deliveries ds ++ rest → wr_ok s.env.tun_out = true →
      ∃ s', net_dispatch p ds.length s = some (true, s') ∧
        tun_frames s'.env.trace = tun_frames s.env.trace ++ [pl] ∧
        s'.ctx = s.ctx ∧ s'.c.free_id = s.c.free_id ∧
        s'.c.net_buf_expect_type = 0 ∧ s'.c.net_buf_offset = 0 ∧
        s'.c.net_buf_expect_len = 2 ∧ s'.env.net_in = rest := by
  intro ds
  induction ds with
  | nil => intro k s rest _ _ h; exact absurd rfl h
  | cons d ds ih =>
    intro k s rest hmid hne _ hstream hin htun
    have hd : d ≠ [] := hne d (List.mem_cons_self _ _)
    have hne' : ∀ x ∈ ds, x ≠ [] := fun x hx => hne x (List.mem_cons_of_mem _ hx)
    rw [List.flatten_cons] at hstream
    have hin' : s.env.net_in = .data d :: .fail EAGAIN :: (deliveries ds ++ rest) := by
      rw [hin]; rfl
    obtain ⟨s1, hs1, hctx, hfid, hrest, hmore, hdone⟩ :=
      net_step p pl hn1 hn2 s k d ds.flatten (deliveries ds ++ rest) hmid hin' hd hstream htun
    rw [List.length_cons, net_dispatch_succ p ds.length s s1 hs1]
    cases ds with
    | nil =>
      obtain ⟨h1, h2, h3, h4⟩ := hdone rfl
      refine ⟨s1, rfl, h4, hctx, hfid, h1, h2, h3, ?_⟩
      rw [hrest]; rfl
    | cons e es =>
      have hfl : (e :: es).flatten ≠ [] := by
        intro h
        rw [List.flatten_eq_nil_iff] at h
        exact hne' e (List.mem_cons_self _ _) (h e (List.mem_cons_self _ _))
      obtain ⟨hm, hfr, hto⟩ := hmore hfl
      have hstream' : (htons pl.length ++ pl).drop (k + d.length) = (e :: es).flatten := by
        have := congrArg (List.drop d.length) hstream
        rw [List.drop_drop, List.drop_left] at this
        exact this
      obtain ⟨s2, hs2, g1, g2, g3, g4, g5, g6, g7⟩ :=
        ih (k + d.length) s1 rest hm hne' (List.cons_ne_nil _ _) hstream' hrest (by rw [hto]; exact htun)
      exact ⟨s2, hs2, by rw [g1, hfr], by rw [g2, hctx], by rw [g3, hfid], g4, g5, g6, g7⟩

theorem htons_small (n : Nat) (h : n < 65536) : htons n = [n / 256, n % 256] := by
  simp [htons, Nat.mod_eq_of_lt h]

/-- C2 (amended): from the initial decode state (awaiting the length, offset
0, 2 bytes expected), for every payload of 1 to 4096 bytes and every split of
the big-endian length followed by the payload into non-empty deliveries, each
followed by a read that would block, provided the device write returns a
positive count, the successive dispatches of `client_net_func` all return
`G_SOURCE_CONTINUE`, leave the main context and `free_id` as they were (no
teardown is requested), perform exactly one device write, of the payload, and
end awaiting the length at offset 0 with 2 bytes expected. -/
theorem fragmentation_robustness (p : Nat) (s : Conn) (pl : List Nat) (ds : List (List Nat))
    (hty : s.c.net_buf_expect_type = 0) (hoff : s.c.net_buf_offset = 0)
    (hexp : s.c.net_buf_expect_len = 2)
    (hn1 : 1 ≤ pl.length) (hn2 : pl.length ≤ 4096)
    (hne : ∀ d ∈ ds, d ≠ [])
    (hsplit : ds.flatten = [pl.length / 256, pl.length % 256] ++ pl)
    (hin : s.env.net_in = deliveries ds)
    (htun : wr_ok s.env.tun_out = true) :
    ∃ s', net_dispatch p ds.length s = some (true, s') ∧
      tun_frames s'.env.trace = tun_frames s.env.trace ++ [pl] ∧
      s'.ctx = s.ctx ∧ s'.c.free_id = s.c.free_id ∧
      s'.c.net_buf_expect_type = 0 ∧ s'.c.net_buf_offset = 0 ∧
      s'.c.net_buf_expect_len = 2 ∧ s'.env.net_in = [] := by
  have hlt : pl.length < 65536 := by omega
  have hmid : Mid pl 0 s.c := by
    simp [Mid, hty, hoff, hexp]
  have hds : ds ≠ [] := by
    intro h
    rw [h] at hsplit
    simp at hsplit
  exact net_dispatch_frame p pl hn1 hlt ds 0 s [] hmid hne hds
    (by rw [htons_small _ hlt, hsplit]; rfl) (by rw [hin]; simp) htun

theorem fragmentation_robustness_witness :
    ∃ s', net_dispatch 0 4
        (sample_conn { quiet with net_in := deliveries [[0], [5], [1, 2], [3, 4, 5]] }) =
          some (true, s') ∧
      tun_frames s'.env.trace = [[1, 2, 3, 4, 5]] ∧
      s'.ctx = ⟨2, []⟩ ∧ s'.c.free_id = 0 ∧
      s'.c.net_buf_expect_type = 0 ∧ s'.c.net_buf_offset = 0 ∧
      s'.c.net_buf_expect_len = 2 ∧ s'.env.net_in = [] :=
  fragmentation_robustness 0
    (sample_conn { quiet with net_in := deliveries [[0], [5], [1, 2], [3, 4, 5]] })
    [1, 2, 3, 4, 5] [[0], [5], [1, 2], [3, 4, 5]] rfl rfl rfl (by decide) (by decide)
    (by decide) (by decide) rfl rfl

/-- C2 fails as stated when the device refuses the write: on the deliveries
00, 05, 01 02, 03 04 05 with a device write that fails (`errno` 22) or that
returns 0, the one device write of the payload is made, but the last dispatch
returns `G_SOURCE_REMOVE` with an idle source pending for the record
(teardown is requested), and the decode state is left in the payload phase at
offset 5 with 0 bytes expected. -/
theorem device_write_failure_tears_down :
    (net_dispatch 0 4
        (sample_conn { quiet with net_in := deliveries [[0], [5], [1, 2], [3, 4, 5]],
                                  tun_out := [.fail 22] })).map
      (fun r => (r.1, r.2.c.net_buf_expect_type, r.2.c.net_buf_offset,
        r.2.c.net_buf_expect_len, r.2.c.free_id, r.2.ctx.idle, tun_frames r.2.env.trace)) =
      some (false, 1, 5, 0, 3, [(3, 0)], [[1, 2, 3, 4, 5]]) ∧
    (net_dispatch 0 4
        (sample_conn { quiet with net_in := deliveries [[0], [5], [1, 2], [3, 4, 5]],
                                  tun_out := [.accept 0] })).map
      (fun r => (r.1, r.2.c.net_buf_expect_type, r.2.c.net_buf_offset,
        r.2.c.net_buf_expect_len, r.2.c.free_id, r.2.ctx.idle, tun_frames r.2.env.trace)) =
      some (false, 1, 5, 0, 3, [(3, 0)], [[1, 2, 3, 4, 5]]) := by
  constructor
  · rfl
  · rfl

/-! ## Theorems: encoding -/

theorem sys_write_all (script : List WrEv) (n : Nat) (h : takes_all script = true)
    (hn : n ≤ 4096) : (sys_write script n).1 = (n : Int) ∧ takes_all (sys_write script n).2 = true := by
  match script, h with
  | [], _ => exact ⟨rfl, rfl⟩
  | .accept k :: t, h =>
    simp [takes_all] at h
    refine ⟨?_, ?_⟩
    · simp only [sys_write]
      have : min k n = n := by omega
      rw [this]
    · simp only [sys_write, takes_all, List.all_eq_true]
      intro x hx
      exact h.2 x hx
  | .fail _ :: t, h => simp [takes_all] at h

theorem net_sent_frames_calls (fs : List (List Nat)) : net_sent (frames_calls fs) = frames_wire fs := by
  induction fs with
  | nil => rfl
  | cons f fs ih =>
    simp [frames_calls, frame_calls, net_sent_append, net_sent, frames_wire, ih]

/-- The loop of `client_tun_func` over a sequence of frames the socket takes in full. -/
theorem client_tun_loop_frames (p : Nat) :
    ∀ (fs : List (List Nat)) (a : Conn),
      a.c.tun_buf_size = 4096 → (∀ f ∈ fs, 1 ≤ f.length ∧ f.length ≤ 4096) →
      a.env.tun_in = fs.map RdEv.data → takes_all a.env.net_out = true →
      ∃ a', client_tun_loop p (fs.length + 1) a = some (true, a') ∧
        a'.env.trace = a.env.trace ++ frames_calls fs ++ [.tun_read 4096 (-1)] ∧
        a'.ctx = a.ctx ∧ a'.c.free_id = a.c.free_id ∧ a'.c.tun_id = a.c.tun_id := by
  intro fs
  induction fs with
  | nil =>
    intro a hsz _ hin _
    have h : client_tun_loop p 1 a = some (true, { a with
        env := { a.env with tun_in := [], trace := a.env.trace ++ [.tun_read 4096 (-1)] } }) := by
      simp only [client_tun_loop, tun_read, hin, List.map_nil]
      simp [EAGAIN, EINTR, hsz, RdRes.len]
    exact ⟨_, h, by simp [frames_calls], rfl, rfl, rfl⟩
  | cons f fs ih =>
    intro a hsz hL hin hacc
    obtain ⟨hf1, hf2⟩ := hL f (List.mem_cons_self _ _)
    have hL' : ∀ x ∈ fs, 1 ≤ x.length ∧ x.length ≤ 4096 :=
      fun x hx => hL x (List.mem_cons_of_mem _ hx)
    obtain ⟨c, ctx, ⟨nin, nout, tin, tout, tr⟩⟩ := a
    simp only at hsz hin hacc ⊢
    subst hin
    have hW1 := sys_write_all nout 2 hacc (by omega)
    have hW2 := sys_write_all (sys_write nout 2).2 f.length hW1.2 hf2
    have hlt : f.length < 65536 := by omega
    have htake : f.take 4096 = f := List.take_of_length_le hf2
    have hst : (store c.tun_buf 0 f).take f.length = f := by
      have := store_take c.tun_buf 0 f
      simpa using this
    have hf0 : f.length ≠ 0 := by omega
    obtain ⟨a', ha', h1, h2, h3, h4⟩ := ih
      ⟨{ c with tun_buf := store c.tun_buf 0 f }, ctx,
        ⟨nin, (sys_write (sys_write nout 2).2 f.length).2, fs.map RdEv.data, tout,
          tr ++ frame_calls f⟩⟩ hsz hL' rfl hW2.2
    refine ⟨a', ?_, ?_, h2, h3, h4⟩
    · rw [← ha']
      simp only [List.length_cons, List.map_cons]
      rw [client_tun_loop]
      simp [tun_read, net_write, hsz, htake, hf0, hW1.1, hW2.1, hst, htons_small _ hlt,
        frame_calls, RdRes.len, htons_length]
    · rw [h1]
      simp [frames_calls]

/-- The handler `client_tun_func` always returns: its fuel never runs out. -/
theorem client_tun_loop_total (p : Nat) : ∀ (fuel : Nat) (s : Conn),
    s.env.tun_in.length < fuel → (client_tun_loop p fuel s).isSome = true := by
  intro fuel
  induction fuel with
  | zero => intro s h; omega
  | succ fuel ih =>
    intro s h
    obtain ⟨c, ctx, ⟨nin, nout, tin, tout, tr⟩⟩ := s
    simp only at h
    rw [client_tun_loop]
    cases tin with
    | nil => simp [tun_read, EAGAIN, EINTR]
    | cons ev rest =>
      simp only [List.length_cons] at h
      cases ev with
      | fail e =>
        simp only [tun_read]
        by_cases he : e = EINTR
        · simp only [he, if_true]
          exact ih _ (by simp only; omega)
        · rw [if_neg he]
          split <;> rfl
      | data bs =>
        simp only [tun_read]
        split
        · rfl
        · split
          · rfl
          · split
            · rfl
            · exact ih _ (by simp only [net_write]; omega)

theorem client_data_free_same (ctx : MainCtx) (p : Nat) (c d : client_data)
    (h : d.free_id = c.free_id) :
    (client_data_free ctx p d).1 = (client_data_free ctx p c).1 ∧
    (client_data_free ctx p d).2.free_id = (client_data_free ctx p c).2.free_id ∧
    (client_data_free ctx p d).2.tun_id = d.tun_id := by
  unfold client_data_free
  rw [h]
  by_cases hf : c.free_id > 0
  · simp [hf, h]
  · simp [hf]

/-- Whatever `client_tun_func` does, its first call is a device read of
`tun_buf_size` bytes, and the calls it makes are appended to the trace. -/
theorem client_tun_loop_trace (p : Nat) : ∀ (fuel : Nat) (s : Conn) (r : Bool × Conn),
    client_tun_loop p fuel s = some r →
    ∃ ret tail, r.2.env.trace = s.env.trace ++ .tun_read s.c.tun_buf_size ret :: tail := by
  intro fuel
  induction fuel with
  | zero => intro s r h; simp [client_tun_loop] at h
  | succ fuel ih =>
    intro s r h
    rw [client_tun_loop] at h
    have hq : (tun_read s.env s.c.tun_buf_size).2.trace =
        s.env.trace ++ [.tun_read s.c.tun_buf_size (tun_read s.env s.c.tun_buf_size).1.len] :=
      rfl
    generalize tun_read s.env s.c.tun_buf_size = q at h hq
    obtain ⟨q1, q2⟩ := q
    cases q1 with
    | err e =>
      simp only at h hq
      split at h
      · obtain ⟨ret, tail, ht⟩ := ih _ r h
        exact ⟨_, _, by rw [ht]; simp only [hq, List.append_assoc]; rfl⟩
      · split at h
        · cases h
          exact ⟨_, [], hq⟩
        · cases h
          exact ⟨_, [], hq⟩
    | got bs =>
      simp only at h hq
      split at h
      · cases h
        exact ⟨_, [], hq⟩
      · have hw : (net_write q2 (htons bs.length)).2.trace =
            q2.trace ++ [.net_write (htons bs.length) (net_write q2 (htons bs.length)).1] := rfl
        generalize net_write q2 (htons bs.length) = w at h hw
        split at h
        · cases h
          exact ⟨_, _, by simp only [tun_error, hw, hq, List.append_assoc]; rfl⟩
        · have hv : (net_write w.2 ((store s.c.tun_buf 0 bs).take bs.length)).2.trace =
              w.2.trace ++ [.net_write ((store s.c.tun_buf 0 bs).take bs.length)
                (net_write w.2 ((store s.c.tun_buf 0 bs).take bs.length)).1] := rfl
          generalize net_write w.2 ((store s.c.tun_buf 0 bs).take bs.length) = v at h hv
          split at h
          · cases h
            exact ⟨_, _, by simp only [tun_error, hv, hw, hq, List.append_assoc]; rfl⟩
          · obtain ⟨ret, tail, ht⟩ := ih _ r h
            exact ⟨_, _, by rw [ht]; simp only [hv, hw, hq, List.append_assoc]; rfl⟩

/-- One turn of the loop of `client_tun_func` on a frame of 1 to 4096 bytes
when both socket writes return a positive count. -/
theorem client_tun_func_frame (p : Nat) (a : Conn) (f : List Nat) (rest : List RdEv)
    (hsz : a.c.tun_buf_size = 4096) (hL1 : 1 ≤ f.length) (hL2 : f.length ≤ 4096)
    (hin : a.env.tun_in = .data f :: rest)
    (hp1 : 0 < (sys_write a.env.net_out 2).1)
    (hp2 : 0 < (sys_write (sys_write a.env.net_out 2).2 f.length).1) :
    ∃ r ret tail, client_tun_func p a = some r ∧
      r.2.env.trace = a.env.trace ++
        [.tun_read 4096 f.length,
         .net_write [f.length / 256, f.length % 256] (sys_write a.env.net_out 2).1,
         .net_write f (sys_write (sys_write a.env.net_out 2).2 f.length).1] ++
        (.tun_read 4096 ret :: tail) ∧
      net_sent r.2.env.trace = net_sent a.env.trace ++
        ([f.length / 256, f.length % 256].take (sys_write a.env.net_out 2).1.toNat ++
          f.take (sys_write (sys_write a.env.net_out 2).2 f.length).1.toNat) ++
        net_sent tail := by
  obtain ⟨c, ctx, ⟨nin, nout, tin, tout, tr⟩⟩ := a
  simp only at hsz hin hp1 hp2 ⊢
  subst hin
  have hlt : f.length < 65536 := by omega
  have htake : f.take 4096 = f := List.take_of_length_le hL2
  have hst : (store c.tun_buf 0 f).take f.length = f := by
    have := store_take c.tun_buf 0 f
    simpa using this
  have hf0 : f.length ≠ 0 := by omega
  have hstep : client_tun_func p
        ⟨c, ctx, ⟨nin, nout, .data f :: rest, tout, tr⟩⟩ =
      client_tun_loop p (rest.length + 1)
        ⟨{ c with tun_buf := store c.tun_buf 0 f }, ctx,
          ⟨nin, (sys_write (sys_write nout 2).2 f.length).2, rest, tout,
            tr ++ [.tun_read 4096 f.length,
              .net_write [f.length / 256, f.length % 256] (sys_write nout 2).1,
              .net_write f (sys_write (sys_write nout 2).2 f.length).1]⟩⟩ := by
    simp only [client_tun_func, List.length_cons]
    rw [client_tun_loop]
    simp [tun_read, net_write, hsz, htake, hf0, not_le.mpr hp1, not_le.mpr hp2, hst,
      htons_small _ hlt, RdRes.len]
  have htot := client_tun_loop_total p (rest.length + 1)
    ⟨{ c with tun_buf := store c.tun_buf 0 f }, ctx,
      ⟨nin, (sys_write (sys_write nout 2).2 f.length).2, rest, tout,
        tr ++ [.tun_read 4096 f.length,
          .net_write [f.length / 256, f.length % 256] (sys_write nout 2).1,
          .net_write f (sys_write (sys_write nout 2).2 f.length).1]⟩⟩ (Nat.lt_succ_self _)
  obtain ⟨r, hr⟩ := Option.isSome_iff_exists.mp htot
  obtain ⟨ret, tail, ht⟩ := client_tun_loop_trace p _ _ r hr
  simp only [hsz] at ht
  refine ⟨r, ret, tail, by rw [hstep, hr], ht, ?_⟩
  rw [ht]
  simp [net_sent_append, net_sent]

/-- C4 (amended): for every frame of 1 to 4096 bytes that `client_tun_func`
reads from the device, the handler writes the 2-byte big-endian length with
one `write` and, if that returned a positive count, the payload with one more
`write`. (1) If the socket takes both writes in full, the handler returns,
its calls are "device read, write of the length, write of the frame" followed
by the next device read, and the bytes the socket took for the frame are the
2 + L bytes, length then payload. (2) If both writes return a positive count
but one is short, the calls are the same two writes followed by the next
device read: nothing is retried and the socket took only the accepted prefix
of each part. (3) If the first write returns at most 0 (any error, `EINTR`
included), no further call is made: `tun_id` is set to 0, `client_data_free`
is called and the handler returns `G_SOURCE_REMOVE`. (4) Likewise if the
second write returns at most 0. -/
theorem encode_frame (p : Nat) (a : Conn) (f : List Nat) (rest : List RdEv)
    (hsz : a.c.tun_buf_size = 4096) (hL1 : 1 ≤ f.length) (hL2 : f.length ≤ 4096)
    (hin : a.env.tun_in = .data f :: rest) :
    ((sys_write a.env.net_out 2).1 = 2 →
      (sys_write (sys_write a.env.net_out 2).2 f.length).1 = (f.length : Int) →
      ∃ r ret tail, client_tun_func p a = some r ∧
        r.2.env.trace = a.env.trace ++
          [.tun_read 4096 f.length, .net_write [f.length / 256, f.length % 256] 2,
           .net_write f f.length] ++ (.tun_read 4096 ret :: tail) ∧
        net_sent r.2.env.trace = net_sent a.env.trace ++
          ([f.length / 256, f.length % 256] ++ f) ++ net_sent tail) ∧
    (0 < (sys_write a.env.net_out 2).1 →
      0 < (sys_write (sys_write a.env.net_out 2).2 f.length).1 →
      ∃ r ret tail, client_tun_func p a = some r ∧
        r.2.env.trace = a.env.trace ++
          [.tun_read 4096 f.length,
           .net_write [f.length / 256, f.length % 256] (sys_write a.env.net_out 2).1,
           .net_write f (sys_write (sys_write a.env.net_out 2).2 f.length).1] ++
          (.tun_read 4096 ret :: tail) ∧
        net_sent r.2.env.trace = net_sent a.env.trace ++
          ([f.length / 256, f.length % 256].take (sys_write a.env.net_out 2).1.toNat ++
            f.take (sys_write (sys_write a.env.net_out 2).2 f.length).1.toNat) ++
          net_sent tail) ∧
    ((sys_write a.env.net_out 2).1 ≤ 0 →
      ∃ s', client_tun_func p a = some (false, s') ∧
        s'.env.trace = a.env.trace ++
          [.tun_read 4096 f.length,
           .net_write [f.length / 256, f.length % 256] (sys_write a.env.net_out 2).1] ∧
        net_sent s'.env.trace = net_sent a.env.trace ∧
        s'.c.tun_id = 0 ∧ s'.ctx = (client_data_free a.ctx p a.c).1 ∧
        s'.c.free_id = (client_data_free a.ctx p a.c).2.free_id) ∧
    (0 < (sys_write a.env.net_out 2).1 →
      (sys_write (sys_write a.env.net_out 2).2 f.length).1 ≤ 0 →
      ∃ s', client_tun_func p a = some (false, s') ∧
        s'.env.trace = a.env.trace ++
          [.tun_read 4096 f.length,
           .net_write [f.length / 256, f.length % 256] (sys_write a.env.net_out 2).1,
           .net_write f (sys_write (sys_write a.env.net_out 2).2 f.length).1] ∧
        net_sent s'.env.trace = net_sent a.env.trace ++
          [f.length / 256, f.length % 256].take (sys_write a.env.net_out 2).1.toNat ∧
        s'.c.tun_id = 0 ∧ s'.ctx = (client_data_free a.ctx p a.c).1 ∧
        s'.c.free_id = (client_data_free a.ctx p a.c).2.free_id) := by
  have hlt : f.length < 65536 := by omega
  have htake : f.take 4096 = f := List.take_of_length_le hL2
  have hf0 : f.length ≠ 0 := by omega
  refine ⟨?_, ?_, ?_, ?_⟩
  · intro h1 h2
    obtain ⟨r, ret, tail, hr, ht, hs⟩ := client_tun_func_frame p a f rest hsz hL1 hL2 hin
      (by rw [h1]; decide) (by rw [h2]; omega)
    rw [h1, h2] at ht hs
    refine ⟨r, ret, tail, hr, ht, ?_⟩
    rw [hs]
    simp
  · intro hp1 hp2
    exact client_tun_func_frame p a f rest hsz hL1 hL2 hin hp1 hp2
  · intro hn1
    obtain ⟨c, ctx, ⟨nin, nout, tin, tout, tr⟩⟩ := a
    simp only at hsz hin hn1 ⊢
    subst hin
    have hfree := client_data_free_same ctx p c
      { c with tun_buf := store c.tun_buf 0 f, tun_id := 0 } rfl
    refine ⟨⟨(client_data_free ctx p
          { c with tun_buf := store c.tun_buf 0 f, tun_id := 0 }).2,
        (client_data_free ctx p { c with tun_buf := store c.tun_buf 0 f, tun_id := 0 }).1,
        ⟨nin, (sys_write nout 2).2, rest, tout,
          tr ++ [.tun_read 4096 f.length,
            .net_write [f.length / 256, f.length % 256] (sys_write nout 2).1]⟩⟩,
      ?_, rfl, ?_, hfree.2.2, hfree.1, hfree.2.1⟩
    · simp only [client_tun_func, List.length_cons]
      rw [client_tun_loop]
      simp [tun_read, net_write, hsz, htake, hf0, hn1, htons_small _ hlt, RdRes.len,
        tun_error]
    · have hz : (sys_write nout 2).1.toNat = 0 := by omega
      simp [net_sent_append, net_sent, hz]
  · intro hp1 hn2
    obtain ⟨c, ctx, ⟨nin, nout, tin, tout, tr⟩⟩ := a
    simp only at hsz hin hp1 hn2 ⊢
    subst hin
    have hst : (store c.tun_buf 0 f).take f.length = f := by
      have := store_take c.tun_buf 0 f
      simpa using this
    have hfree := client_data_free_same ctx p c
      { c with tun_buf := store c.tun_buf 0 f, tun_id := 0 } rfl
    refine ⟨⟨(client_data_free ctx p
          { c with tun_buf := store c.tun_buf 0 f, tun_id := 0 }).2,
        (client_data_free ctx p { c with tun_buf := store c.tun_buf 0 f, tun_id := 0 }).1,
        ⟨nin, (sys_write (sys_write nout 2).2 f.length).2, rest, tout,
          tr ++ [.tun_read 4096 f.length,
            .net_write [f.length / 256, f.length % 256] (sys_write nout 2).1,
            .net_write f (sys_write (sys_write nout 2).2 f.length).1]⟩⟩,
      ?_, rfl, ?_, hfree.2.2, hfree.1, hfree.2.1⟩
    · simp only [client_tun_func, List.length_cons]
      rw [client_tun_loop]
      simp [tun_read, net_write, hsz, htake, hf0, not_le.mpr hp1, hn2, hst,
        htons_small _ hlt, RdRes.len, tun_error]
    · have hz : (sys_write (sys_write nout 2).2 f.length).1.toNat = 0 := by omega
      simp [net_sent_append, net_sent, hz]

theorem encode_frame_witness :
    (∃ r ret tail,
      client_tun_func 0 (sample_conn { quiet with tun_in := [.data [170, 187, 204]] }) =
        some r ∧
      r.2.env.trace =
        [.tun_read 4096 3, .net_write [0, 3] 2, .net_write [170, 187, 204] 3] ++
          (.tun_read 4096 ret :: tail) ∧
      net_sent r.2.env.trace = [0, 3, 170, 187, 204] ++ net_sent tail) ∧
    (∃ r ret tail,
      client_tun_func 0
        (sample_conn { quiet with tun_in := [.data [1, 2, 3]],
                                  net_out := [.accept 2, .accept 1] }) = some r ∧
      r.2.env.trace =
        [.tun_read 4096 3, .net_write [0, 3] 2, .net_write [1, 2, 3] 1] ++
          (.tun_read 4096 ret :: tail) ∧
      net_sent r.2.env.trace = [0, 3, 1] ++ net_sent tail) ∧
    (∃ s',
      client_tun_func 0
        (sample_conn { quiet with tun_in := [.data [1, 2, 3]],
                                  net_out := [.fail EINTR] }) = some (false, s') ∧
      s'.env.trace = [.tun_read 4096 3, .net_write [0, 3] (-1)] ∧
      net_sent s'.env.trace = [] ∧
      s'.c.tun_id = 0 ∧ s'.ctx = ⟨3, [(3, 0)]⟩ ∧ s'.c.free_id = 3) ∧
    (∃ s',
      client_tun_func 0
        (sample_conn { quiet with tun_in := [.data [1, 2, 3]],
                                  net_out := [.accept 2, .fail EINTR] }) = some (false, s') ∧
      s'.env.trace = [.tun_read 4096 3, .net_write [0, 3] 2, .net_write [1, 2, 3] (-1)] ∧
      net_sent s'.env.trace = [0, 3] ∧
      s'.c.tun_id = 0 ∧ s'.ctx = ⟨3, [(3, 0)]⟩ ∧ s'.c.free_id = 3) :=
  ⟨(encode_frame 0 (sample_conn { quiet with tun_in := [.data [170, 187, 204]] })
      [170, 187, 204] [] rfl (by decide) (by decide) rfl).1 (by decide) (by decide),
   (encode_frame 0
      (sample_conn { quiet with tun_in := [.data [1, 2, 3]],
                                net_out := [.accept 2, .accept 1] })
      [1, 2, 3] [] rfl (by decide) (by decide) rfl).2.1 (by decide) (by decide),
   (encode_frame 0
      (sample_conn { quiet with tun_in := [.data [1, 2, 3]], net_out := [.fail EINTR] })
      [1, 2, 3] [] rfl (by decide) (by decide) rfl).2.2.1 (by decide),
   (encode_frame 0
      (sample_conn { quiet with tun_in := [.data [1, 2, 3]],
                                net_out := [.accept 2, .fail EINTR] })
      [1, 2, 3] [] rfl (by decide) (by decide) rfl).2.2.2 (by decide) (by decide)⟩

/-- C4 fails as stated. Short write: the socket takes the 2 length bytes but
only 1 of the 3 payload bytes; the handler does not write the remainder, its
next call is the next device read, and the socket has taken 3 bytes, not 5.
Interrupted write: the first write fails with `EINTR`; the handler does not
retry, it requests teardown and returns `G_SOURCE_REMOVE`. -/
theorem encode_short_write_not_retried :
    (client_tun_func 0
        (sample_conn { quiet with tun_in := [.data [1, 2, 3]],
                                  net_out := [.accept 2, .accept 1] })).map
      (fun r => (r.1, r.2.env.trace, net_sent r.2.env.trace)) =
      some (true,
        [.tun_read 4096 3, .net_write [0, 3] 2, .net_write [1, 2, 3] 1, .tun_read 4096 (-1)],
        [0, 3, 1]) ∧
    (client_tun_func 0
        (sample_conn { quiet with tun_in := [.data [1, 2, 3]],
                                  net_out := [.fail EINTR] })).map
      (fun r => (r.1, r.2.env.trace, net_sent r.2.env.trace, r.2.ctx.idle, r.2.c.free_id)) =
      some (false, [.tun_read 4096 3, .net_write [0, 3] (-1)], [], [(3, 0)], 3) := by
  constructor
  · decide
  · rfl

/-! ## Theorems: round trip -/

/-- C1 (amended): for every frame of 1 to 4096 bytes, when the socket of the
sender takes both writes in full, the bytes `client_tun_func` put on the
socket are the big-endian length and the frame, and feeding these bytes to
`client_net_func` in any sequence of non-empty fragments (each followed by a
read that would block) makes the decoder write exactly the frame to its
device, once, without requesting teardown. -/
theorem round_trip (p q : Nat) (a b : Conn) (frame : List Nat) (ds : List (List Nat))
    (hL1 : 1 ≤ frame.length) (hL2 : frame.length ≤ 4096)
    (hsz : a.c.tun_buf_size = 4096) (htr : a.env.trace = [])
    (hdev : a.env.tun_in = [.data frame]) (hacc : takes_all a.env.net_out = true)
    (hty : b.c.net_buf_expect_type = 0) (hoff : b.c.net_buf_offset = 0)
    (hexp : b.c.net_buf_expect_len = 2)
    (hne : ∀ d ∈ ds, d ≠ []) (hsplit : ds.flatten = wire (client_tun_func p a))
    (hin : b.env.net_in = deliveries ds) (htun : wr_ok b.env.tun_out = true) :
    wire (client_tun_func p a) = [frame.length / 256, frame.length % 256] ++ frame ∧
    ∃ b', net_dispatch q ds.length b = some (true, b') ∧
      tun_frames b'.env.trace = tun_frames b.env.trace ++ [frame] ∧
      b'.ctx = b.ctx ∧ b'.c.free_id = b.c.free_id ∧
      b'.c.net_buf_expect_type = 0 ∧ b'.c.net_buf_offset = 0 ∧
      b'.c.net_buf_expect_len = 2 ∧ b'.env.net_in = [] := by
  have hW : wire (client_tun_func p a) = [frame.length / 256, frame.length % 256] ++ frame := by
    obtain ⟨a', ha', h1, _, _, _⟩ := client_tun_loop_frames p [frame] a hsz
      (by intro f hf; simp at hf; subst hf; exact ⟨hL1, hL2⟩) (by rw [hdev]; rfl) hacc
    have hfun : client_tun_func p a = some (true, a') := by
      rw [client_tun_func, hdev]; exact ha'
    rw [hfun]
    simp only [wire, h1, htr, List.nil_append, net_sent_append, net_sent_frames_calls]
    simp [frames_wire, net_sent]
  refine ⟨hW, ?_⟩
  have hlt : frame.length < 65536 := by omega
  have hmid : Mid frame 0 b.c := by
    simp [Mid, hty, hoff, hexp]
  have hds : ds ≠ [] := by
    intro h
    rw [h, hW] at hsplit
    simp at hsplit
  exact net_dispatch_frame q frame hL1 hlt ds 0 b [] hmid hne hds
    (by rw [htons_small _ hlt, hsplit, hW]; rfl) (by rw [hin]; simp) htun

theorem round_trip_witness :
    wire (client_tun_func 0 (sample_conn { quiet with tun_in := [.data [170, 187, 204]] })) =
      [0, 3, 170, 187, 204] ∧
    ∃ b', net_dispatch 1 5
        (sample_conn { quiet with net_in := deliveries [[0], [3], [170], [187], [204]] }) =
          some (true, b') ∧
      tun_frames b'.env.trace = [[170, 187, 204]] ∧
      b'.ctx = ⟨2, []⟩ ∧ b'.c.free_id = 0 ∧
      b'.c.net_buf_expect_type = 0 ∧ b'.c.net_buf_offset = 0 ∧
      b'.c.net_buf_expect_len = 2 ∧ b'.env.net_in = [] :=
  round_trip 0 1 (sample_conn { quiet with tun_in := [.data [170, 187, 204]] })
    (sample_conn { quiet with net_in := deliveries [[0], [3], [170], [187], [204]] })
    [170, 187, 204] [[0], [3], [170], [187], [204]] (by decide) (by decide) rfl rfl rfl rfl
    rfl rfl rfl (by decide) (by decide) rfl rfl

/-- C1 fails at L = 0: a device read of zero bytes is not encoded. The handler
puts nothing on the socket, requests teardown and returns `G_SOURCE_REMOVE`;
no split of the (empty) produced stream makes the decoder write a frame. -/
theorem empty_frame_is_not_encoded :
    (client_tun_func 0 (sample_conn { quiet with tun_in := [.data []] })).map
      (fun r => (r.1, r.2.env.trace, r.2.ctx.idle, r.2.c.free_id)) =
      some (false, [.tun_read 4096 0], [(3, 0)], 3) ∧
    wire (client_tun_func 0 (sample_conn { quiet with tun_in := [.data []] })) = [] ∧
    ¬ ∃ (ds : List (List Nat)) (b' : Conn),
      (∀ d ∈ ds, d ≠ []) ∧
      ds.flatten = wire (client_tun_func 0 (sample_conn { quiet with tun_in := [.data []] })) ∧
      net_dispatch 1 ds.length (sample_conn { quiet with net_in := deliveries ds }) =
        some (true, b') ∧
      tun_frames b'.env.trace = [[]] := by
  refine ⟨by decide, by decide, ?_⟩
  rintro ⟨ds, b', hne, hfl, hrun, hfr⟩
  have hw : wire (client_tun_func 0 (sample_conn { quiet with tun_in := [.data []] })) = [] := by
    decide
  rw [hw, List.flatten_eq_nil_iff] at hfl
  have hds : ds = [] := by
    cases ds with
    | nil => rfl
    | cons d t => exact absurd (hfl d (List.mem_cons_self _ _)) (hne d (List.mem_cons_self _ _))
  subst hds
  simp [net_dispatch] at hrun
  subst hrun
  simp [sample_conn, quiet, tun_frames] at hfr

/-! ## Theorems: zero-length and oversize headers -/

theorem zero_header_one (p : Nat) (s : Conn) (more : List Nat) (rest : List RdEv)
    (hty : s.c.net_buf_expect_type = 0) (hoff : s.c.net_buf_offset = 0)
    (hexp : s.c.net_buf_expect_len = 2)
    (hin : s.env.net_in = .data (0 :: 0 :: more) :: rest) :
    ∃ s', client_net_func p s = some (false, s') ∧
      tun_frames s'.env.trace = tun_frames s.env.trace ∧
      s'.c.net_buf_expect_type = 1 ∧ s'.c.net_buf_offset = 0 ∧ s'.c.net_buf_expect_len = 0 ∧
      s'.ctx = (client_data_free s.ctx p s.c).1 ∧
      s'.c.free_id = (client_data_free s.ctx p s.c).2.free_id ∧
      s'.env.net_in = (if more = [] then rest else .data more :: rest) := by
  obtain ⟨⟨bp, tfd, tb, tbs, nfd, ns, nb, nbs, off, e, ty, src, tid, fid⟩, ctx,
    ⟨nin, nout, tin, tout, tr⟩⟩ := s
  simp only at hty hoff hexp hin ⊢
  subst hty hoff hexp hin
  have hR := readn_generic_full ⟨.data (0 :: 0 :: more) :: rest, nout, tin, tout, tr⟩
    (0 :: 0 :: more) rest nb 0 2 rfl (by omega) (by simp)
  simp at hR
  have hnt : ntohs (store nb 0 [0, 0]) = 0 := by simp [store, ntohs]
  simp only [client_net_func, rx_bytes, client_net_loop, net_header, hR]
  simp [hnt, net_payload, readn_generic_zero, net_error, EAGAIN, tun_frames_append, tun_frames]
  unfold client_data_free
  by_cases hf : fid > 0 <;> simp [hf, g_idle_add]

theorem zero_header_two (p : Nat) (s : Conn) (more : List Nat) (rest : List RdEv)
    (hty : s.c.net_buf_expect_type = 0) (hoff : s.c.net_buf_offset = 0)
    (hexp : s.c.net_buf_expect_len = 2)
    (hin : s.env.net_in = .data [0] :: .fail EAGAIN :: .data (0 :: more) :: rest) :
    ∃ s', net_dispatch p 2 s = some (false, s') ∧
      tun_frames s'.env.trace = tun_frames s.env.trace ∧
      s'.c.net_buf_expect_type = 1 ∧ s'.c.net_buf_offset = 0 ∧ s'.c.net_buf_expect_len = 0 ∧
      s'.ctx = (client_data_free s.ctx p s.c).1 ∧
      s'.c.free_id = (client_data_free s.ctx p s.c).2.free_id ∧
      s'.env.net_in = (if more = [] then rest else .data more :: rest) := by
  obtain ⟨⟨bp, tfd, tb, tbs, nfd, ns, nb, nbs, off, e, ty, src, tid, fid⟩, ctx,
    ⟨nin, nout, tin, tout, tr⟩⟩ := s
  simp only at hty hoff hexp hin ⊢
  subst hty hoff hexp hin
  have hR1 := readn_generic_short
    ⟨.data [0] :: .fail EAGAIN :: .data (0 :: more) :: rest, nout, tin, tout, tr⟩
    [0] (.data (0 :: more) :: rest) nb 0 2 rfl (by simp) (by simp)
  simp at hR1
  have hR2 := readn_generic_full
    ⟨.data (0 :: more) :: rest, nout, tin, tout,
      tr ++ [.net_read 0 2 1, .net_read 1 1 (-1)]⟩
    (0 :: more) rest (store nb 0 [0]) 1 1 rfl (by omega) (by simp)
  simp at hR2
  have hnt : ntohs (store (store nb 0 [0]) 1 [0]) = 0 := by simp [store, ntohs]
  have hD1 : client_net_func p
      ⟨⟨bp, tfd, tb, tbs, nfd, ns, nb, nbs, 0, 2, 0, src, tid, fid⟩, ctx,
        ⟨.data [0] :: .fail EAGAIN :: .data (0 :: more) :: rest, nout, tin, tout, tr⟩⟩ =
      some (true, ⟨⟨bp, tfd, tb, tbs, nfd, ns, store nb 0 [0], nbs, 1, 1, 0, src, tid, fid⟩, ctx,
        ⟨.data (0 :: more) :: rest, nout, tin, tout,
          tr ++ [.net_read 0 2 1, .net_read 1 1 (-1)]⟩⟩) := by
    simp only [client_net_func, rx_bytes, client_net_loop, net_header, hR1]
    simp [EAGAIN]
  rw [net_dispatch_succ p 1 _ _ hD1]
  simp only [net_dispatch, client_net_func, rx_bytes, client_net_loop, net_header, hR2]
  simp [hnt, net_payload, readn_generic_zero, net_error, EAGAIN, tun_frames_append, tun_frames]
  unfold client_data_free
  by_cases hf : fid > 0 <;> simp [hf, g_idle_add]

/-- C5 (amended): a zero-length header is fatal. From the initial decode
state, when the socket brings the header bytes 0x00 0x00, in one delivery or
split over two, `client_net_func` completes the header, asks the socket for
zero bytes, takes the zero it gets for end of file and goes to its error
path: the dispatch returns `G_SOURCE_REMOVE` after `client_data_free`, no
device write is made, the decode state is left awaiting a payload at offset 0
with 0 bytes expected, and the bytes that follow the header stay unread. -/
theorem zero_length_header_is_fatal (p : Nat) (s : Conn) (more : List Nat) (rest : List RdEv)
    (hty : s.c.net_buf_expect_type = 0) (hoff : s.c.net_buf_offset = 0)
    (hexp : s.c.net_buf_expect_len = 2) :
    (s.env.net_in = .data (0 :: 0 :: more) :: rest →
      ∃ s', net_dispatch p 1 s = some (false, s') ∧
        tun_frames s'.env.trace = tun_frames s.env.trace ∧
        s'.c.net_buf_expect_type = 1 ∧ s'.c.net_buf_offset = 0 ∧
        s'.c.net_buf_expect_len = 0 ∧
        s'.ctx = (client_data_free s.ctx p s.c).1 ∧
        s'.c.free_id = (client_data_free s.ctx p s.c).2.free_id ∧
        s'.env.net_in = (if more = [] then rest else .data more :: rest)) ∧
    (s.env.net_in = .data [0] :: .fail EAGAIN :: .data (0 :: more) :: rest →
      ∃ s', net_dispatch p 2 s = some (false, s') ∧
        tun_frames s'.env.trace = tun_frames s.env.trace ∧
        s'.c.net_buf_expect_type = 1 ∧ s'.c.net_buf_offset = 0 ∧
        s'.c.net_buf_expect_len = 0 ∧
        s'.ctx = (client_data_free s.ctx p s.c).1 ∧
        s'.c.free_id = (client_data_free s.ctx p s.c).2.free_id ∧
        s'.env.net_in = (if more = [] then rest else .data more :: rest)) := by
  constructor
  · intro hin
    obtain ⟨s', h, hrest⟩ := zero_header_one p s more rest hty hoff hexp hin
    exact ⟨s', by simp [net_dispatch, h], hrest⟩
  · intro hin
    exact zero_header_two p s more rest hty hoff hexp hin

theorem zero_length_header_is_fatal_witness :
    (∃ s', net_dispatch 0 1
        (sample_conn { quiet with net_in := [.data [0, 0, 0, 1, 7], .fail EAGAIN] }) =
          some (false, s') ∧
      tun_frames s'.env.trace = [] ∧
      s'.c.net_buf_expect_type = 1 ∧ s'.c.net_buf_offset = 0 ∧
      s'.c.net_buf_expect_len = 0 ∧
      s'.ctx = ⟨3, [(3, 0)]⟩ ∧ s'.c.free_id = 3 ∧
      s'.env.net_in = [.data [0, 1, 7], .fail EAGAIN]) ∧
    (∃ s', net_dispatch 0 2
        (sample_conn { quiet with
          net_in := [.data [0], .fail EAGAIN, .data [0], .fail EAGAIN] }) =
          some (false, s') ∧
      tun_frames s'.env.trace = [] ∧
      s'.c.net_buf_expect_type = 1 ∧ s'.c.net_buf_offset = 0 ∧
      s'.c.net_buf_expect_len = 0 ∧
      s'.ctx = ⟨3, [(3, 0)]⟩ ∧ s'.c.free_id = 3 ∧
      s'.env.net_in = [.fail EAGAIN]) :=
  ⟨(zero_length_header_is_fatal 0
      (sample_conn { quiet with net_in := [.data [0, 0, 0, 1, 7], .fail EAGAIN] })
      [0, 1, 7] [.fail EAGAIN] rfl rfl rfl).1 rfl,
   (zero_length_header_is_fatal 0
      (sample_conn { quiet with
        net_in := [.data [0], .fail EAGAIN, .data [0], .fail EAGAIN] })
      [] [.fail EAGAIN] rfl rfl rfl).2 rfl⟩

/-- C5 fails as stated: on the header 0x00 0x00 the handler requests teardown
(it returns `G_SOURCE_REMOVE` and an idle source for the record is pending),
the decode state is not reset (payload phase, offset 0, 0 bytes expected), and
a well-formed frame that follows is never written to the device. -/
theorem zero_header_requests_teardown :
    (net_dispatch 0 1 (sample_conn { quiet with net_in := deliveries [[0, 0]] })).map
      (fun r => (r.1, r.2.c.net_buf_expect_type, r.2.c.net_buf_offset,
        r.2.c.net_buf_expect_len, r.2.c.free_id, r.2.ctx.idle, r.2.env.trace)) =
      some (false, 1, 0, 0, 3, [(3, 0)], [.net_read 0 2 2, .net_read 0 0 0]) ∧
    (net_dispatch 0 2
        (sample_conn { quiet with net_in := deliveries [[0, 0], [0, 1, 7]] })).map
      (fun r => (r.1, tun_frames r.2.env.trace)) = some (false, []) := by
  constructor
  · rfl
  · rfl

/-- C3, the code at an oversize header: after the header 0x10 0x01 (4097) and
after the header 0xFF 0xFF (65535) `client_net_func` returns
`G_SOURCE_CONTINUE` with no idle source added and `free_id` still 0, expects
that many payload bytes and has asked `read` for them at offset 0 of the
buffer whose `net_buf_size` is 4096. -/
theorem oversize_header_is_read_past_the_buffer :
    (client_net_func 0 (sample_conn { quiet with net_in := deliveries [[16, 1]] })).map
      (fun r => (r.1, r.2.c.net_buf_expect_type, r.2.c.net_buf_expect_len,
        r.2.c.net_buf_size, r.2.c.free_id, r.2.ctx.idle, net_requests r.2.env.trace)) =
      some (true, 1, 4097, 4096, 0, [], [(0, 2), (0, 4097)]) ∧
    (client_net_func 0 (sample_conn { quiet with net_in := deliveries [[255, 255]] })).map
      (fun r => (r.1, r.2.c.net_buf_expect_type, r.2.c.net_buf_expect_len,
        r.2.c.net_buf_size, r.2.c.free_id, r.2.ctx.idle, net_requests r.2.env.trace)) =
      some (true, 1, 65535, 4096, 0, [], [(0, 2), (0, 65535)]) := by
  constructor
  · rfl
  · rfl

/-! ## Theorems: the invariant of the server -/

theorem inv_init : Inv World.init := by
  constructor
  · refine ⟨rfl, rfl, ?_, ?_, ?_, Or.inl rfl, ?_⟩
    all_goals simp [World.init, World.ports, br_port_init]
    intro i hi
    interval_cases i <;> simp
  · refine ⟨?_, ?_, ?_, ?_, ?_, ?_, ?_, ?_, ?_, ?_⟩
    all_goals simp [World.init, World.calls]

theorem pool_of_eq (w w' : World) (h : PoolInv w) (h1 : w'.br_port = w.br_port)
    (h2 : w'.tun_client = w.tun_client) (h3 : w'.ports = w.ports) : PoolInv w' := by
  obtain ⟨a1, a2, a3, a4, a5, a6, a7⟩ := h
  constructor
  · rw [h1]; exact a1
  · rw [h1]; exact a2
  · rw [h3]; exact a3
  · rw [h1, h3]; exact a4
  · rw [h3]; exact a5
  · rw [h2]; exact a6
  · rw [h2, h3]; exact a7

theorem sched_of_eq (w w' : World) (h : SchedInv w) (h1 : w'.ctx = w.ctx)
    (h2 : w'.heap = w.heap) (h3 : w'.next_ptr = w.next_ptr)
    (h4 : ∀ p f, w'.calls p f = w.calls p f) : SchedInv w' := by
  obtain ⟨a1, a2, a3, a4, a5, a6, a7, a8, a9, a10⟩ := h
  constructor
  · rw [h2, h3]; exact a1
  · rw [h1, h2]; exact a2
  · rw [h1]; exact a3
  · rw [h1]; exact a4
  · rw [h1]; exact a5
  · rw [h1]; exact a6
  · rw [h1, h2]; exact a7
  · intro p; rw [h4, h2, h3]; exact a8 p
  · intro p; rw [h4, h2, h3]; exact a9 p
  · intro p; rw [h4, h2, h3]; exact a10 p

theorem calls_append_none (w : World) (l : List (Option Nat × Op))
    (hl : ∀ e ∈ l, e.1 = none) (p : Nat) (f : Op → Bool) :
    ({ w with log := w.log ++ l } : World).calls p f = w.calls p f := by
  simp only [World.calls, List.filter_append, List.length_append]
  have : l.filter (fun e => decide (e.1 = some p) && f e.2) = [] := by
    rw [List.filter_eq_nil_iff]
    intro e he
    simp [hl e he]
  rw [this]
  rfl

theorem inv_log_none (w : World) (h : Inv w) (l : List (Option Nat × Op))
    (hl : ∀ e ∈ l, e.1 = none) : Inv { w with log := w.log ++ l } :=
  ⟨pool_of_eq w _ h.1 rfl rfl rfl,
   sched_of_eq w _ h.2 rfl rfl rfl (calls_append_none w l hl)⟩

theorem inv_quit (w : World) (h : Inv w) : Inv { w with quit := true } :=
  ⟨pool_of_eq w _ h.1 rfl rfl rfl, sched_of_eq w _ h.2 rfl rfl rfl (fun _ _ => rfl)⟩

/-- Allocating a record with `free_id = 0` at the next address keeps the
scheduler invariant. -/
theorem sched_alloc (w w' : World) (h : SchedInv w) (c : client_data) (hfree : c.free_id = 0)
    (hheap : w'.heap = Function.update w.heap w.next_ptr (some c))
    (hnext : w'.next_ptr = w.next_ptr + 1) (hidle : w'.ctx.idle = w.ctx.idle)
    (hcount : w.ctx.count ≤ w'.ctx.count) (hlog : w'.log = w.log) : SchedInv w' := by
  obtain ⟨a1, a2, a3, a4, a5, a6, a7, a8, a9, a10⟩ := h
  have hnone : w.heap w.next_ptr = none := a1 _ (le_refl _)
  have hcalls : ∀ p f, w'.calls p f = w.calls p f := by
    intro p f; simp [World.calls, hlog]
  have hcase : ∀ p, (p < w'.next_ptr ∧ w'.heap p = none) ↔ (p < w.next_ptr ∧ w.heap p = none) := by
    intro p
    rw [hheap, hnext]
    by_cases hp : p = w.next_ptr
    · subst hp; simp
    · simp [Function.update, hp]
      intro _
      omega
  constructor
  · intro p hp
    rw [hheap, hnext] at *
    have : p ≠ w.next_ptr := by omega
    simp [Function.update, this]
    exact a1 p (by omega)
  · intro e he
    rw [hidle] at he
    obtain ⟨d, hd, hf⟩ := a2 e he
    have : e.2 ≠ w.next_ptr := by
      intro heq; rw [heq, hnone] at hd; cases hd
    exact ⟨d, by rw [hheap]; simp [Function.update, this, hd], hf⟩
  · rw [hidle]; exact a3
  · intro e he
    rw [hidle] at he
    exact le_trans (a4 e he) hcount
  · rw [hidle]; exact a5
  · rw [hidle]; exact a6
  · intro p d hd hpos
    rw [hidle]
    rw [hheap] at hd
    by_cases hp : p = w.next_ptr
    · subst hp
      simp at hd
      subst hd
      rw [hfree] at hpos
      exact absurd hpos (by decide)
    · simp [Function.update, hp] at hd
      exact a7 p d hd hpos
  · intro p; rw [hcalls, a8 p]; simp only [hcase]
  · intro p; rw [hcalls, a9 p]; simp only [hcase]
  · intro p; rw [hcalls, a10 p]; simp only [hcase]

theorem ports_update (w : World) (p : Nat) (c : client_data) :
    (fun q => (Function.update w.heap p (some c) q).map (fun c => c.bridge_port)) =
      Function.update w.ports p (some c.bridge_port) := by
  funext q
  by_cases hq : q = p
  · subst hq; simp
  · simp [Function.update, hq, World.ports]

theorem ports_erase (w : World) (p : Nat) :
    (fun q => (Function.update w.heap p none q).map (fun c => c.bridge_port)) =
      Function.update w.ports p none := by
  funext q
  by_cases hq : q = p
  · subst hq; simp
  · simp [Function.update, hq, World.ports]

theorem pool_alloc_bridge (w w' : World) (h : PoolInv w) (m : Nat) (hm : m < 3)
    (hfree : w.br_port.getD m false = false) (hnone : w.ports w.next_ptr = none)
    (hbr : w'.br_port = w.br_port.set m true) (htc : w'.tun_client = w.tun_client)
    (hports : w'.ports = Function.update w.ports w.next_ptr (some (m : Int))) : PoolInv w' := by
  obtain ⟨a1, a2, a3, a4, a5, a6, a7⟩ := h
  have hp : ∀ q b, w'.ports q = some b ↔
      (q = w.next_ptr ∧ b = (m : Int)) ∨ (q ≠ w.next_ptr ∧ w.ports q = some b) := by
    intro q b
    rw [hports]
    by_cases hq : q = w.next_ptr
    · subst hq; simp [eq_comm]
    · simp [Function.update, hq]
  have hmb : m < w.br_port.length := by omega
  constructor
  · rw [hbr, List.length_set]; exact a1
  · rw [hbr, getD_set_other _ _ _ _ (by omega)]; exact a2
  · intro q b hq
    rcases (hp q b).mp hq with ⟨_, hb⟩ | ⟨_, hb⟩
    · right; omega
    · exact a3 q b hb
  · intro i hi
    rw [hbr]
    by_cases him : i = m
    · subst him
      rw [getD_set_self _ _ _ hmb]
      simp only [true_iff]
      exact ⟨w.next_ptr, (hp _ _).mpr (Or.inl ⟨rfl, rfl⟩)⟩
    · rw [getD_set_other _ _ _ _ him, a4 i hi]
      constructor
      · rintro ⟨q, hq⟩
        have : q ≠ w.next_ptr := by
          intro heq; rw [heq, hnone] at hq; cases hq
        exact ⟨q, (hp _ _).mpr (Or.inr ⟨this, hq⟩)⟩
      · rintro ⟨q, hq⟩
        rcases (hp q _).mp hq with ⟨_, hb⟩ | ⟨_, hb⟩
        · exact absurd (by exact_mod_cast hb) him
        · exact ⟨q, hb⟩
  · intro q r b hq hr
    rcases (hp q b).mp hq with ⟨hq1, hb1⟩ | ⟨hq1, hb1⟩ <;>
      rcases (hp r b).mp hr with ⟨hr1, hb2⟩ | ⟨hr1, hb2⟩
    · rw [hq1, hr1]
    · subst hb1
      have := (a4 m hm).mpr ⟨r, hb2⟩
      rw [hfree] at this
      exact absurd this (by decide)
    · subst hb2
      have := (a4 m hm).mpr ⟨q, hb1⟩
      rw [hfree] at this
      exact absurd this (by decide)
    · exact a5 q r b hb1 hb2
  · rw [htc]; exact a6
  · rw [htc, a7]
    constructor
    · rintro ⟨q, hq⟩
      have : q ≠ w.next_ptr := by
        intro heq; rw [heq, hnone] at hq; cases hq
      exact ⟨q, (hp _ _).mpr (Or.inr ⟨this, hq⟩)⟩
    · rintro ⟨q, hq⟩
      rcases (hp q _).mp hq with ⟨_, hb⟩ | ⟨_, hb⟩
      · omega
      · exact ⟨q, hb⟩

theorem pool_alloc_tunnel (w w' : World) (h : PoolInv w) (hflag : ¬ w.tun_client > 0)
    (hnone : w.ports w.next_ptr = none)
    (hbr : w'.br_port = w.br_port) (htc : w'.tun_client = 1)
    (hports : w'.ports = Function.update w.ports w.next_ptr (some (-1))) : PoolInv w' := by
  obtain ⟨a1, a2, a3, a4, a5, a6, a7⟩ := h
  have hp : ∀ q b, w'.ports q = some b ↔
      (q = w.next_ptr ∧ b = -1) ∨ (q ≠ w.next_ptr ∧ w.ports q = some b) := by
    intro q b
    rw [hports]
    by_cases hq : q = w.next_ptr
    · subst hq; simp [eq_comm]
    · simp [Function.update, hq]
  have hno : ¬ ∃ q, w.ports q = some (-1) := by
    rw [← a7]
    omega
  constructor
  · rw [hbr]; exact a1
  · rw [hbr]; exact a2
  · intro q b hq
    rcases (hp q b).mp hq with ⟨_, hb⟩ | ⟨_, hb⟩
    · left; exact hb
    · exact a3 q b hb
  · intro i hi
    rw [hbr, a4 i hi]
    constructor
    · rintro ⟨q, hq⟩
      have : q ≠ w.next_ptr := by
        intro heq; rw [heq, hnone] at hq; cases hq
      exact ⟨q, (hp _ _).mpr (Or.inr ⟨this, hq⟩)⟩
    · rintro ⟨q, hq⟩
      rcases (hp q _).mp hq with ⟨_, hb⟩ | ⟨_, hb⟩
      · omega
      · exact ⟨q, hb⟩
  · intro q r b hq hr
    rcases (hp q b).mp hq with ⟨hq1, hb1⟩ | ⟨hq1, hb1⟩ <;>
      rcases (hp r b).mp hr with ⟨hr1, hb2⟩ | ⟨hr1, hb2⟩
    · rw [hq1, hr1]
    · subst hb1
      exact absurd ⟨r, hb2⟩ hno
    · subst hb2
      exact absurd ⟨q, hb1⟩ hno
    · exact a5 q r b hb1 hb2
  · right; exact htc
  · simp only [htc, true_iff]
    exact ⟨w.next_ptr, (hp _ _).mpr (Or.inl ⟨rfl, rfl⟩)⟩

theorem pool_destroy (w w' : World) (h : PoolInv w) (p : Nat) (b : Int)
    (hpb : w.ports p = some b)
    (hbr : w'.br_port = bridge_put_port w.br_port b)
    (htc : w'.tun_client = if b = -1 then 0 else w.tun_client)
    (hports : w'.ports = Function.update w.ports p none) : PoolInv w' := by
  obtain ⟨a1, a2, a3, a4, a5, a6, a7⟩ := h
  have hp : ∀ q x, w'.ports q = some x ↔ (q ≠ p ∧ w.ports q = some x) := by
    intro q x
    rw [hports]
    by_cases hq : q = p
    · subst hq; simp
    · simp [Function.update, hq]
  have honly : ∀ q, w.ports q = some b → q = p := fun q hq => a5 q p b hq hpb
  rcases a3 p b hpb with hb | ⟨hb1, hb2⟩
  · subst hb
    have hbr' : w'.br_port = w.br_port := by
      rw [hbr]; simp [bridge_put_port]
    simp only [if_true] at htc
    constructor
    · rw [hbr']; exact a1
    · rw [hbr']; exact a2
    · intro q x hq; exact a3 q x ((hp q x).mp hq).2
    · intro i hi
      rw [hbr', a4 i hi]
      constructor
      · rintro ⟨q, hq⟩
        have : q ≠ p := by
          intro heq; rw [heq, hpb] at hq
          have := Option.some.inj hq
          omega
        exact ⟨q, (hp _ _).mpr ⟨this, hq⟩⟩
      · rintro ⟨q, hq⟩
        exact ⟨q, ((hp _ _).mp hq).2⟩
    · intro q r x hq hr
      exact a5 q r x ((hp _ _).mp hq).2 ((hp _ _).mp hr).2
    · left; exact htc
    · rw [htc]
      constructor
      · intro h01; exact absurd h01 (by decide)
      · rintro ⟨q, hq⟩
        have := (hp _ _).mp hq
        exact absurd (honly q this.2) this.1
  · obtain ⟨m, rfl⟩ : ∃ m : Nat, b = (m : Int) := ⟨b.toNat, by omega⟩
    have hm : m < 3 := by omega
    have hbr' : w'.br_port = w.br_port.set m false := by
      rw [hbr]
      have : ¬ (((m : Int) < 0) ∨ ((m : Int) ≥ (br_count : Int))) := by
        simp [br_count]; omega
      unfold bridge_put_port
      rw [if_neg this]
      simp
    have hne : ¬ ((m : Int) = -1) := by omega
    simp only [hne, if_false] at htc
    have hmb : m < w.br_port.length := by omega
    constructor
    · rw [hbr', List.length_set]; exact a1
    · rw [hbr', getD_set_other _ _ _ _ (by omega)]; exact a2
    · intro q x hq; exact a3 q x ((hp q x).mp hq).2
    · intro i hi
      rw [hbr']
      by_cases him : i = m
      · subst him
        rw [getD_set_self _ _ _ hmb]
        constructor
        · intro hft; exact absurd hft (by decide)
        · rintro ⟨q, hq⟩
          have := (hp _ _).mp hq
          exact absurd (honly q this.2) this.1
      · rw [getD_set_other _ _ _ _ him, a4 i hi]
        constructor
        · rintro ⟨q, hq⟩
          have : q ≠ p := by
            intro heq; rw [heq, hpb] at hq
            have := Option.some.inj hq
            exact him (by exact_mod_cast this.symm)
          exact ⟨q, (hp _ _).mpr ⟨this, hq⟩⟩
        · rintro ⟨q, hq⟩
          exact ⟨q, ((hp _ _).mp hq).2⟩
    · intro q r x hq hr
      exact a5 q r x ((hp _ _).mp hq).2 ((hp _ _).mp hr).2
    · rw [htc]; exact a6
    · rw [htc, a7]
      constructor
      · rintro ⟨q, hq⟩
        have : q ≠ p := by
          intro heq; rw [heq, hpb] at hq
          have := Option.some.inj hq
          omega
        exact ⟨q, (hp _ _).mpr ⟨this, hq⟩⟩
      · rintro ⟨q, hq⟩
        exact ⟨q, ((hp _ _).mp hq).2⟩

theorem sched_teardown (w w' : World) (h : SchedInv w) (p : Nat) (c c' : client_data)
    (hpc : w.heap p = some c) (hnot : ¬ c.free_id > 0)
    (hfid : c'.free_id = ((w.ctx.count + 1 : Nat) : Int))
    (hheap : w'.heap = Function.update w.heap p (some c'))
    (hctx : w'.ctx = ⟨w.ctx.count + 1, w.ctx.idle ++ [(w.ctx.count + 1, p)]⟩)
    (hnext : w'.next_ptr = w.next_ptr) (hlog : w'.log = w.log) : SchedInv w' := by
  obtain ⟨a1, a2, a3, a4, a5, a6, a7, a8, a9, a10⟩ := h
  have hcalls : ∀ q f, w'.calls q f = w.calls q f := by
    intro q f; simp [World.calls, hlog]
  have hnp : ∀ e ∈ w.ctx.idle, e.2 ≠ p := by
    intro e he heq
    obtain ⟨d, hd, hf⟩ := a2 e he
    rw [heq, hpc] at hd
    have hdc := Option.some.inj hd
    subst hdc
    have := a3 e he
    omega
  have hcase : ∀ q, (q < w'.next_ptr ∧ w'.heap q = none) ↔ (q < w.next_ptr ∧ w.heap q = none) := by
    intro q
    rw [hheap, hnext]
    by_cases hq : q = p
    · subst hq; simp [hpc]
    · simp [Function.update, hq]
  constructor
  · intro q hq
    rw [hheap, hnext] at *
    have : q ≠ p := by
      intro heq; subst heq
      rw [a1 q hq] at hpc; cases hpc
    simp [Function.update, this]
    exact a1 q hq
  · intro e he
    rw [hctx] at he
    simp only [List.mem_append, List.mem_singleton] at he
    rcases he with he | he
    · obtain ⟨d, hd, hf⟩ := a2 e he
      exact ⟨d, by rw [hheap]; simp [Function.update, hnp e he, hd], hf⟩
    · subst he
      exact ⟨c', by rw [hheap]; simp, hfid⟩
  · intro e he
    rw [hctx] at he
    simp only [List.mem_append, List.mem_singleton] at he
    rcases he with he | he
    · exact a3 e he
    · subst he; simp
  · intro e he
    rw [hctx] at he ⊢
    simp only [List.mem_append, List.mem_singleton] at he
    rcases he with he | he
    · have := a4 e he
      simp only
      omega
    · subst he; simp
  · rw [hctx]
    simp only [List.map_append, List.map_cons, List.map_nil]
    rw [List.nodup_append]
    refine ⟨a5, List.nodup_singleton _, ?_⟩
    intro x hx hx'
    simp only [List.mem_singleton] at hx'
    obtain ⟨e, he, rfl⟩ := List.mem_map.mp hx
    have := a4 e he
    omega
  · rw [hctx]
    simp only [List.map_append, List.map_cons, List.map_nil]
    rw [List.nodup_append]
    refine ⟨a6, List.nodup_singleton _, ?_⟩
    intro x hx hx'
    simp only [List.mem_singleton] at hx'
    obtain ⟨e, he, rfl⟩ := List.mem_map.mp hx
    exact hnp e he hx'
  · intro q d hd hpos
    rw [hctx]
    rw [hheap] at hd
    simp only [List.mem_append, List.mem_singleton]
    by_cases hq : q = p
    · subst hq
      simp at hd
      subst hd
      right
      rw [hfid]
      simp
    · simp [Function.update, hq] at hd
      left
      exact a7 q d hd hpos
  · intro q; rw [hcalls, a8 q]; simp only [hcase]
  · intro q; rw [hcalls, a9 q]; simp only [hcase]
  · intro q; rw [hcalls, a10 q]; simp only [hcase]

theorem pool_teardown (w w' : World) (h : PoolInv w) (p : Nat) (c c' : client_data)
    (hpc : w.heap p = some c) (hbp : c'.bridge_port = c.bridge_port)
    (hheap : w'.heap = Function.update w.heap p (some c'))
    (hbr : w'.br_port = w.br_port) (htc : w'.tun_client = w.tun_client) : PoolInv w' := by
  apply pool_of_eq w w' h hbr htc
  funext q
  simp only [World.ports, hheap]
  by_cases hq : q = p
  · subst hq; simp [hpc, hbp]
  · simp [Function.update, hq]

theorem destroy_log_calls (p q : Nat) (c : client_data) (f : Op → Bool)
    (hf : f = Op.is_put ∨ f = Op.is_close ∨ f = Op.is_unref) :
    (([(some p, Op.bridge_put_port c.bridge_port),
       (some p, Op.g_source_destroy c.net_source),
        (some p, Op.g_source_unref c.net_source),
       (some p, Op.g_object_unref c.net_sock)] ++
      (if c.tun_id > 0 then [(some p, Op.g_source_remove c.tun_id)] else []) ++
      [(some p, Op.close c.tun_fd), (some p, Op.g_free_buf true),
        (some p, Op.g_free_buf false), (some p, Op.g_free p)] : List (Option Nat × Op)).filter
        (fun e => decide (e.1 = some q) && f e.2)).length = if q = p then 1 else 0 := by
  by_cases hq : q = p
  · subst hq
    rcases hf with rfl | rfl | rfl <;> by_cases ht : c.tun_id > 0 <;>
      simp [ht, Op.is_put, Op.is_close, Op.is_unref]
  · have hq' : ¬ p = q := fun h => hq h.symm
    by_cases ht : c.tun_id > 0 <;> simp [ht, hq, hq']

theorem sched_destroy (w w' : World) (h : SchedInv w) (e : Nat × Nat) (c : client_data)
    (he : e ∈ w.ctx.idle) (hpc : w.heap e.2 = some c)
    (hheap : w'.heap = Function.update w.heap e.2 none)
    (hidle : w'.ctx.idle = w.ctx.idle.filter (fun x => x.1 ≠ e.1))
    (hcount : w'.ctx.count = w.ctx.count) (hnext : w'.next_ptr = w.next_ptr)
    (hlog0 : w'.log = w.log ++
      [(some e.2, Op.bridge_put_port c.bridge_port),
        (some e.2, Op.g_source_destroy c.net_source),
        (some e.2, Op.g_source_unref c.net_source),
        (some e.2, Op.g_object_unref c.net_sock)] ++
       (if c.tun_id > 0 then [(some e.2, Op.g_source_remove c.tun_id)] else []) ++
       [(some e.2, Op.close c.tun_fd), (some e.2, Op.g_free_buf true),
        (some e.2, Op.g_free_buf false), (some e.2, Op.g_free e.2)]) : SchedInv w' := by
  obtain ⟨a1, a2, a3, a4, a5, a6, a7, a8, a9, a10⟩ := h
  have hlog : w'.log = w.log ++
      ([(some e.2, Op.bridge_put_port c.bridge_port),
        (some e.2, Op.g_source_destroy c.net_source),
        (some e.2, Op.g_source_unref c.net_source),
        (some e.2, Op.g_object_unref c.net_sock)] ++
       (if c.tun_id > 0 then [(some e.2, Op.g_source_remove c.tun_id)] else []) ++
       [(some e.2, Op.close c.tun_fd), (some e.2, Op.g_free_buf true),
        (some e.2, Op.g_free_buf false), (some e.2, Op.g_free e.2)]) := by
    rw [hlog0]
    simp only [List.append_assoc]
  have hcid : c.free_id = (e.1 : Int) := by
    obtain ⟨d, hd, hf⟩ := a2 e he
    rw [hpc] at hd
    have := Option.some.inj hd
    subst this
    exact hf
  have hmem : ∀ x, x ∈ w'.ctx.idle ↔ x ∈ w.ctx.idle ∧ x.1 ≠ e.1 := by
    intro x
    rw [hidle, List.mem_filter]
    simp
  have hother : ∀ x ∈ w'.ctx.idle, x.2 ≠ e.2 := by
    intro x hx heq
    obtain ⟨hx1, hx2⟩ := (hmem x).mp hx
    obtain ⟨d, hd, hf⟩ := a2 x hx1
    rw [heq, hpc] at hd
    have := Option.some.inj hd
    subst this
    rw [hcid] at hf
    exact hx2 (by exact_mod_cast hf.symm)
  have hlt : e.2 < w.next_ptr := by
    by_contra hc
    rw [a1 e.2 (by omega)] at hpc
    cases hpc
  have hcalls : ∀ q f, (f = Op.is_put ∨ f = Op.is_close ∨ f = Op.is_unref) →
      w'.calls q f = w.calls q f + if q = e.2 then 1 else 0 := by
    intro q f hf
    simp only [World.calls, hlog]
    rw [List.filter_append, List.length_append, destroy_log_calls e.2 q c f hf]
  have hcase : ∀ q, (if q < w'.next_ptr ∧ w'.heap q = none then 1 else 0) =
      (if q < w.next_ptr ∧ w.heap q = none then 1 else 0) + if q = e.2 then 1 else 0 := by
    intro q
    rw [hheap, hnext]
    by_cases hq : q = e.2
    · subst hq; simp [hpc, hlt]
    · simp [Function.update, hq]
  constructor
  · intro q hq
    rw [hheap]
    rw [hnext] at hq
    by_cases hqe : q = e.2
    · subst hqe; simp
    · simp [Function.update, hqe]
      exact a1 q hq
  · intro x hx
    obtain ⟨d, hd, hf⟩ := a2 x ((hmem x).mp hx).1
    exact ⟨d, by rw [hheap]; simp [Function.update, hother x hx, hd], hf⟩
  · intro x hx
    exact a3 x ((hmem x).mp hx).1
  · intro x hx
    rw [hcount]
    exact a4 x ((hmem x).mp hx).1
  · rw [hidle]
    exact List.Nodup.sublist ((List.filter_sublist _).map _) a5
  · rw [hidle]
    exact List.Nodup.sublist ((List.filter_sublist _).map _) a6
  · intro q d hd hpos
    rw [hheap] at hd
    have hq : q ≠ e.2 := by
      intro heq; subst heq; simp at hd
    simp [Function.update, hq] at hd
    have hin := a7 q d hd hpos
    refine (hmem _).mpr ⟨hin, ?_⟩
    intro hid
    have := List.inj_on_of_nodup_map a5 hin he hid
    rw [← this] at hq
    exact hq rfl
  · intro q; rw [hcalls q _ (Or.inl rfl), a8 q, hcase]
  · intro q; rw [hcalls q _ (Or.inr (Or.inl rfl)), a9 q, hcase]
  · intro q; rw [hcalls q _ (Or.inr (Or.inr rfl)), a10 q, hcase]

theorem ports_none_of_fresh (w : World) (h : SchedInv w) : w.ports w.next_ptr = none := by
  simp [World.ports, h.fresh w.next_ptr (le_refl _)]

theorem set_false_restore (l : List Bool) (m : Nat) (h : l.getD m false = false) :
    l.set m false = l := by
  by_cases hm : m < l.length
  · have hlm : l[m]? = some false := by
      have h' : l[m]?.getD false = false := by
        rw [← List.getD_eq_getElem?_getD]; exact h
      rw [List.getElem?_eq_getElem hm] at h' ⊢
      simp at h'
      rw [h']
    apply List.ext_getElem?
    intro i
    rw [List.getElem?_set]
    by_cases hi : m = i
    · subst hi
      simp [hm, hlm]
    · simp [hi]
  · exact List.set_eq_of_length_le (by omega)

theorem inv_server_func (w : World) (h : Inv w) (client : Option Int) (tun_fd : Int) :
    Inv (server_func w client tun_fd).2 := by
  cases client with
  | none => exact inv_quit w h
  | some cl =>
    have key := bridge_get_port_loop_spec w.br_port br_count 0
      (fun j hj => absurd hj (Nat.not_lt_zero j))
    rcases key with ⟨m, _, hm2, hm3, _, hm5⟩ | ⟨_, hres⟩
    · have hr : bridge_get_port w.br_port = ((m : Int), w.br_port.set m true) := hm5
      have hm : m < 3 := by simp [br_count] at hm2; omega
      have hneg : ¬ ((m : Int) < 0) := by omega
      simp only [server_func, hr, hneg, if_false]
      by_cases hfd : tun_fd < 0
      · simp only [hfd, if_true]
        have hput : bridge_put_port (w.br_port.set m true) (m : Int) = w.br_port := by
          have : ¬ (((m : Int) < 0) ∨ ((m : Int) ≥ (br_count : Int))) := by
            simp [br_count]; omega
          unfold bridge_put_port
          rw [if_neg this]
          simp
          exact set_false_restore _ _ hm3
        rw [hput]
        exact inv_log_none w h _ (by simp)
      · simp only [hfd, if_false]
        constructor
        · refine pool_alloc_bridge w _ h.1 m hm hm3 (ports_none_of_fresh w h.2) ?_ ?_ ?_
          · rfl
          · rfl
          · exact ports_update w w.next_ptr _
        · refine sched_alloc w _ h.2 (client_data_new w.ctx cl tun_fd (m : Int)).1 ?_ ?_ ?_ ?_ ?_ ?_
          · rfl
          · rfl
          · rfl
          · rfl
          · show w.ctx.count ≤ w.ctx.count + 1 + 1
            omega
          · rfl
    · have hr : bridge_get_port w.br_port = (-1, w.br_port) := hres
      simp only [server_func, hr]
      simp
      exact inv_log_none w h _ (by simp)

theorem inv_tun_server (w : World) (h : Inv w) (client : Option Int) (tun_fd : Int) :
    Inv (tun_server w client tun_fd).2 := by
  cases client with
  | none => exact inv_quit w h
  | some cl =>
    simp only [tun_server]
    by_cases hflag : w.tun_client > 0
    · simp only [hflag, if_true]
      exact inv_log_none w h _ (by simp)
    · simp only [hflag, if_false]
      by_cases hfd : tun_fd < 0
      · simp only [hfd, if_true]
        exact inv_log_none w h _ (by simp)
      · simp only [hfd, if_false]
        constructor
        · refine pool_alloc_tunnel w _ h.1 hflag (ports_none_of_fresh w h.2) ?_ ?_ ?_
          · rfl
          · rfl
          · exact ports_update w w.next_ptr _
        · refine sched_alloc w _ h.2 (client_data_new w.ctx cl tun_fd (-1)).1 ?_ ?_ ?_ ?_ ?_ ?_
          · rfl
          · rfl
          · rfl
          · rfl
          · show w.ctx.count ≤ w.ctx.count + 1 + 1
            omega
          · rfl

theorem inv_teardown (w : World) (h : Inv w) (p : Nat) : Inv (w.teardown p) := by
  unfold World.teardown
  cases hpc : w.heap p with
  | none => exact h
  | some c =>
    simp only
    by_cases hf : c.free_id > 0
    · have hsame : client_data_free w.ctx p c = (w.ctx, c) := by simp [client_data_free, hf]
      rw [hsame]
      have hheap : Function.update w.heap p (some c) = w.heap := by
        rw [← hpc]; exact Function.update_eq_self p w.heap
      exact ⟨pool_of_eq w _ h.1 rfl rfl (by simp [World.ports, hheap]),
        sched_of_eq w _ h.2 rfl hheap rfl (fun _ _ => rfl)⟩
    · have hnew : client_data_free w.ctx p c =
          (⟨w.ctx.count + 1, w.ctx.idle ++ [(w.ctx.count + 1, p)]⟩,
            { c with free_id := ((w.ctx.count + 1 : Nat) : Int) }) := by
        simp [client_data_free, hf, g_idle_add]
      rw [hnew]
      constructor
      · refine pool_teardown w _ h.1 p c
          { c with free_id := ((w.ctx.count + 1 : Nat) : Int) } hpc ?_ ?_ ?_ ?_
        · rfl
        · rfl
        · rfl
        · rfl
      · refine sched_teardown w _ h.2 p c
          { c with free_id := ((w.ctx.count + 1 : Nat) : Int) } hpc hf ?_ ?_ ?_ ?_ ?_
        · rfl
        · rfl
        · rfl
        · rfl
        · rfl

theorem inv_dispatch_idle (w : World) (h : Inv w) (id : Nat) : Inv (w.dispatch_idle id) := by
  unfold World.dispatch_idle
  cases hfind : w.ctx.idle.find? (fun e => e.1 = id) with
  | none => exact h
  | some e =>
    simp only
    have he : e ∈ w.ctx.idle := List.mem_of_find?_eq_some hfind
    have hid : e.1 = id := by
      have := List.find?_some hfind
      simpa using this
    obtain ⟨c, hpc, _⟩ := h.2.idle_live e he
    subst hid
    simp only [client_data_free_func, hpc]
    constructor
    · refine pool_destroy w _ h.1 e.2 c.bridge_port (by simp [World.ports, hpc]) ?_ ?_ ?_
      · rfl
      · rfl
      · exact ports_erase w e.2
    · refine sched_destroy w _ h.2 e c he hpc ?_ ?_ ?_ ?_ ?_
      · rfl
      · rfl
      · rfl
      · rfl
      · rfl

theorem inv_step (w : World) (h : Inv w) (e : Ev) : Inv (w.step e) := by
  cases e with
  | bridge_accept client tun_fd => exact inv_server_func w h client tun_fd
  | tunnel_accept client tun_fd => exact inv_tun_server w h client tun_fd
  | teardown p => exact inv_teardown w h p
  | idle id => exact inv_dispatch_idle w h id

theorem inv_run (es : List Ev) : ∀ w, Inv w → Inv (w.run es) := by
  induction es with
  | nil => intro w h; exact h
  | cons e es ih => intro w h; exact ih _ (inv_step w h e)

theorem inv_reachable (w : World) (h : Reachable w) : Inv w := by
  obtain ⟨es, rfl⟩ := h
  exact inv_run es _ inv_init

/-! ## Theorems: ownership of the pool, teardown, the tunnel -/

theorem run_append (es : List Ev) : ∀ (w : World) (fs : List Ev),
    w.run (es ++ fs) = (w.run es).run fs := by
  induction es with
  | nil => intro w fs; rfl
  | cons e es ih => intro w fs; exact ih (w.step e) fs

theorem reachable_run (w : World) (h : Reachable w) (es : List Ev) : Reachable (w.run es) := by
  obtain ⟨fs, rfl⟩ := h
  exact ⟨fs ++ es, (run_append fs World.init es).symm⟩

theorem reachable_step (w : World) (h : Reachable w) (e : Ev) : Reachable (w.step e) :=
  reachable_run w h [e]

theorem count_le_three (l : List Bool) (hlen : l.length = 4) (htop : l.getD 3 false = false) :
    l.count true ≤ 3 := by
  match l, hlen with
  | [a, b, c, d], _ =>
    simp at htop
    subst htop
    cases a <;> cases b <;> cases c <;> decide

/-- C8: in every state reachable from the initial one by accepts on the bridge
port (device allocation succeeding or failing), accepts on the tunnel port,
teardown requests (repeated or not) and dispatches of idle sources, at most
`br_count` slots are set, slot `i` is set exactly when an allocated record has
`bridge_port = i`, and no two allocated records have the same non-negative
`bridge_port`. -/
theorem pool_ownership (w : World) (hw : Reachable w) :
    w.br_port.count true ≤ br_count ∧
    (∀ i : Nat, w.br_port.getD i false = true ↔
      ∃ p c, w.heap p = some c ∧ c.bridge_port = (i : Int)) ∧
    (∀ p q c d, w.heap p = some c → w.heap q = some d → 0 ≤ c.bridge_port →
      c.bridge_port = d.bridge_port → p = q) := by
  obtain ⟨hp, _⟩ := inv_reachable w hw
  refine ⟨count_le_three w.br_port hp.len hp.top, ?_, ?_⟩
  · intro i
    have hex : (∃ p, w.ports p = some (i : Int)) ↔
        ∃ p c, w.heap p = some c ∧ c.bridge_port = (i : Int) := by
      constructor
      · rintro ⟨p, hpp⟩
        simp only [World.ports, Option.map_eq_some'] at hpp
        obtain ⟨c, hc, hb⟩ := hpp
        exact ⟨p, c, hc, hb⟩
      · rintro ⟨p, c, hc, hb⟩
        exact ⟨p, by simp [World.ports, hc, hb]⟩
    by_cases hi : i < 3
    · rw [hp.occupied i hi, hex]
    · constructor
      · intro hset
        exfalso
        by_cases h3 : i = 3
        · subst h3
          rw [hp.top] at hset
          exact absurd hset (by decide)
        · have : w.br_port.getD i false = false := by
            rw [List.getD_eq_getElem?_getD, List.getElem?_eq_none (by rw [hp.len]; omega)]
            rfl
          rw [this] at hset
          exact absurd hset (by decide)
      · intro hx
        obtain ⟨p, hpp⟩ := hex.mpr hx
        rcases hp.port_range p _ hpp with hneg | ⟨_, hlt⟩
        · omega
        · omega
  · intro p q c d hc hd _ hcd
    exact hp.port_unique p q c.bridge_port (by simp [World.ports, hc])
      (by simp [World.ports, hd, hcd])

theorem pool_ownership_witness :
    Reachable sample_pool_world ∧
    sample_pool_world.br_port = [false, true, false, false] ∧
    (sample_pool_world.br_port.count true ≤ br_count ∧
    (∀ i : Nat, sample_pool_world.br_port.getD i false = true ↔
      ∃ p c, sample_pool_world.heap p = some c ∧ c.bridge_port = (i : Int)) ∧
    (∀ p q c d, sample_pool_world.heap p = some c → sample_pool_world.heap q = some d →
      0 ≤ c.bridge_port → c.bridge_port = d.bridge_port → p = q)) ∧
    (∃ p c, sample_pool_world.heap p = some c ∧ c.bridge_port = ((1 : Nat) : Int)) :=
  ⟨⟨_, rfl⟩, by decide, pool_ownership sample_pool_world ⟨_, rfl⟩,
    ((pool_ownership sample_pool_world ⟨_, rfl⟩).2.1 1).mp (by decide)⟩

theorem filter_ptr_le_one (l : List (Nat × Nat)) (h : (l.map (fun e => e.2)).Nodup) (p : Nat) :
    (l.filter (fun e => e.2 = p)).length ≤ 1 := by
  induction l with
  | nil => simp
  | cons x t ih =>
    simp only [List.map_cons, List.nodup_cons] at h
    by_cases hx : x.2 = p
    · have hnone : t.filter (fun e => e.2 = p) = [] := by
        rw [List.filter_eq_nil_iff]
        intro e he hep
        simp only [decide_eq_true_eq] at hep
        exact h.1 (List.mem_map.mpr ⟨e, he, by rw [hep, hx]⟩)
      simp [List.filter_cons, hx, hnone]
    · simp only [List.filter_cons, hx, decide_False]
      exact ih h.2

/-- In a state that satisfies the invariant, dispatching the idle source of a
record runs `client_data_free_func` on that record and removes the source. -/
theorem dispatch_idle_eq (w : World) (h : SchedInv w) (id p : Nat)
    (hmem : (id, p) ∈ w.ctx.idle) :
    w.dispatch_idle id =
      { client_data_free_func w p with
        ctx := { (client_data_free_func w p).ctx with
          idle := (client_data_free_func w p).ctx.idle.filter (fun e => e.1 ≠ id) } } := by
  unfold World.dispatch_idle
  cases hfind : w.ctx.idle.find? (fun e => e.1 = id) with
  | none =>
    rw [List.find?_eq_none] at hfind
    exact absurd (by simp) (hfind _ hmem)
  | some e =>
    have he : e ∈ w.ctx.idle := List.mem_of_find?_eq_some hfind
    have hid : e.1 = id := by
      have := List.find?_some hfind
      simpa using this
    have : e = (id, p) := List.inj_on_of_nodup_map h.idle_ids he hmem hid
    subst this
    rfl

theorem teardown_twice (w : World) (p : Nat) : (w.teardown p).teardown p = w.teardown p := by
  have key : ∀ v : World, (∀ c, v.heap p = some c → c.free_id > 0) → v.teardown p = v := by
    intro v hv
    unfold World.teardown
    cases hpc : v.heap p with
    | none => rfl
    | some c =>
      have hsame : client_data_free v.ctx p c = (v.ctx, c) := by
        simp [client_data_free, hv c hpc]
      simp only [hsame]
      have hheap : Function.update v.heap p (some c) = v.heap := by
        rw [← hpc]; exact Function.update_eq_self p v.heap
      rw [hheap]
  apply key
  intro c hc
  unfold World.teardown at hc
  cases hpc : w.heap p with
  | none => rw [hpc] at hc; simp only at hc; rw [hpc] at hc; cases hc
  | some d =>
    rw [hpc] at hc
    simp only [Function.update_same] at hc
    have := Option.some.inj hc
    subst this
    by_cases hf : d.free_id > 0
    · simp [client_data_free, hf]
    · simp [client_data_free, hf, g_idle_add]

theorem teardown_iterate (w : World) (p : Nat) (n : Nat) :
    Nat.iterate (fun v => World.teardown v p) n (w.teardown p) = w.teardown p := by
  induction n with
  | zero => rfl
  | succ n ih =>
    rw [Function.iterate_succ_apply', ih, teardown_twice]

theorem teardown_heap (w : World) (p : Nat) (c : client_data) (hpc : w.heap p = some c) :
    ∃ c', (w.teardown p).heap p = some c' ∧ 0 < c'.free_id ∧
      (w.teardown p).next_ptr = w.next_ptr := by
  unfold World.teardown
  rw [hpc]
  by_cases hf : c.free_id > 0
  · exact ⟨c, by simp [client_data_free, hf], hf, rfl⟩
  · refine ⟨{ c with free_id := ((w.ctx.count + 1 : Nat) : Int) }, ?_, ?_, rfl⟩
    · simp [client_data_free, hf, g_idle_add]
    · simp only
      omega

/-- A record that has been destroyed stays destroyed: its address is not handed out again. -/
theorem dead_step (w : World) (p : Nat) (h : p < w.next_ptr ∧ w.heap p = none) (e : Ev) :
    p < (w.step e).next_ptr ∧ (w.step e).heap p = none := by
  obtain ⟨h1, h2⟩ := h
  have hne : p ≠ w.next_ptr := by omega
  cases e with
  | bridge_accept client tun_fd =>
    cases client with
    | none => exact ⟨h1, h2⟩
    | some cl =>
      simp only [World.step, server_func]
      split
      · exact ⟨h1, h2⟩
      · split
        · exact ⟨h1, h2⟩
        · exact ⟨by simp only; omega, by simp [Function.update, hne, h2]⟩
  | tunnel_accept client tun_fd =>
    cases client with
    | none => exact ⟨h1, h2⟩
    | some cl =>
      simp only [World.step, tun_server]
      split
      · exact ⟨h1, h2⟩
      · split
        · exact ⟨h1, h2⟩
        · exact ⟨by simp only; omega, by simp [Function.update, hne, h2]⟩
  | teardown q =>
    simp only [World.step, World.teardown]
    cases hq : w.heap q with
    | none => exact ⟨h1, h2⟩
    | some c =>
      have : p ≠ q := by
        intro heq; rw [heq, hq] at h2; cases h2
      exact ⟨h1, by simp [Function.update, this, h2]⟩
  | idle id =>
    simp only [World.step, World.dispatch_idle]
    cases hfind : w.ctx.idle.find? (fun e => e.1 = id) with
    | none => exact ⟨h1, h2⟩
    | some e =>
      simp only [client_data_free_func]
      cases hq : w.heap e.2 with
      | none => exact ⟨h1, h2⟩
      | some c =>
        have : p ≠ e.2 := by
          intro heq; rw [heq, hq] at h2; cases h2
        exact ⟨h1, by simp [Function.update, this, h2]⟩

theorem dead_run (es : List Ev) : ∀ (w : World) (p : Nat),
    p < w.next_ptr ∧ w.heap p = none → p < (w.run es).next_ptr ∧ (w.run es).heap p = none := by
  induction es with
  | nil => intro w p h; exact h
  | cons e es ih => intro w p h; exact ih _ p (dead_step w p h e)

theorem destroyed_after_dispatch (w : World) (h : SchedInv w) (id p : Nat) (c : client_data)
    (hmem : (id, p) ∈ w.ctx.idle) (hpc : w.heap p = some c) :
    p < (w.dispatch_idle id).next_ptr ∧ (w.dispatch_idle id).heap p = none ∧
    (w.dispatch_idle id).tun_client = (if c.bridge_port = -1 then 0 else w.tun_client) := by
  have hlt : p < w.next_ptr := by
    by_contra hc
    rw [h.fresh p (by omega)] at hpc
    cases hpc
  rw [dispatch_idle_eq w h id p hmem]
  refine ⟨?_, ?_, ?_⟩
  · simp only [client_data_free_func, hpc]
    exact hlt
  · simp only [client_data_free_func, hpc]
    exact Function.update_same _ _ _
  · simp only [client_data_free_func, hpc]

/-- C9: for every allocated record of a reachable state, a second or later
call of `client_data_free` leaves the whole state (the record and the pending
idle sources included) as the first call left it; after the calls exactly one
idle source is pending for the record and its destruction has released
nothing yet; once that source is dispatched, and whatever events follow, the
record is gone, its destruction has called `bridge_put_port` once, `close` on
the device once and `g_object_unref` on the socket once, and no idle source
is pending for it. -/
theorem teardown_idempotent (w : World) (hw : Reachable w) (p : Nat) (c : client_data)
    (hp : w.heap p = some c) :
    (∀ n, Nat.iterate (fun v => World.teardown v p) n (w.teardown p) = w.teardown p) ∧
    ((w.teardown p).ctx.idle.filter (fun e => e.2 = p)).length = 1 ∧
    (w.teardown p).calls p Op.is_put = 0 ∧
    (w.teardown p).calls p Op.is_close = 0 ∧
    (w.teardown p).calls p Op.is_unref = 0 ∧
    (∀ id, (id, p) ∈ (w.teardown p).ctx.idle → ∀ es : List Ev,
      (((w.teardown p).dispatch_idle id).run es).heap p = none ∧
      (((w.teardown p).dispatch_idle id).run es).calls p Op.is_put = 1 ∧
      (((w.teardown p).dispatch_idle id).run es).calls p Op.is_close = 1 ∧
      (((w.teardown p).dispatch_idle id).run es).calls p Op.is_unref = 1 ∧
      ∀ e ∈ (((w.teardown p).dispatch_idle id).run es).ctx.idle, e.2 ≠ p) := by
  have hr1 : Reachable (w.teardown p) := reachable_step w hw (.teardown p)
  obtain ⟨_, hs1⟩ := inv_reachable _ hr1
  obtain ⟨c', hc', hpos, _⟩ := teardown_heap w p c hp
  have hlive : ¬ (p < (w.teardown p).next_ptr ∧ (w.teardown p).heap p = none) := by
    rw [hc']; simp
  refine ⟨teardown_iterate w p, ?_, ?_, ?_, ?_, ?_⟩
  · apply le_antisymm (filter_ptr_le_one _ hs1.idle_ptrs p)
    have hin := hs1.free_sched p c' hc' hpos
    exact List.length_pos_of_mem (List.mem_filter.mpr ⟨hin, by simp⟩)
  · rw [hs1.puts p, if_neg hlive]
  · rw [hs1.closes p, if_neg hlive]
  · rw [hs1.unrefs p, if_neg hlive]
  · intro id hmem es
    obtain ⟨hlt, hnone, _⟩ := destroyed_after_dispatch _ hs1 id p c' hmem hc'
    have hdead := dead_run es _ p ⟨hlt, hnone⟩
    have hr3 : Reachable (((w.teardown p).dispatch_idle id).run es) :=
      reachable_run _ (reachable_step _ hr1 (.idle id)) es
    obtain ⟨_, hs3⟩ := inv_reachable _ hr3
    refine ⟨hdead.2, ?_, ?_, ?_, ?_⟩
    · rw [hs3.puts p, if_pos hdead]
    · rw [hs3.closes p, if_pos hdead]
    · rw [hs3.unrefs p, if_pos hdead]
    · intro e he heq
      obtain ⟨d, hd, _⟩ := hs3.idle_live e he
      rw [heq, hdead.2] at hd
      cases hd

theorem teardown_idempotent_witness :
    Reachable sample_bridge_world ∧
    sample_bridge_world.heap 0 = some (client_data_new ⟨0, []⟩ 7 8 0).1 ∧
    (3, 0) ∈ (sample_bridge_world.teardown 0).ctx.idle ∧
    (World.teardown (World.teardown (sample_bridge_world.teardown 0) 0) 0 =
        sample_bridge_world.teardown 0) ∧
    ((sample_bridge_world.teardown 0).ctx.idle.filter (fun e => e.2 = 0)).length = 1 ∧
    (sample_bridge_world.teardown 0).calls 0 Op.is_put = 0 ∧
    (sample_bridge_world.teardown 0).calls 0 Op.is_close = 0 ∧
    (sample_bridge_world.teardown 0).calls 0 Op.is_unref = 0 ∧
    ((((sample_bridge_world.teardown 0).dispatch_idle 3).run
        [.bridge_accept (some 9) 10, .teardown 0, .idle 3]).heap 0 = none ∧
      (((sample_bridge_world.teardown 0).dispatch_idle 3).run
        [.bridge_accept (some 9) 10, .teardown 0, .idle 3]).calls 0 Op.is_put = 1 ∧
      (((sample_bridge_world.teardown 0).dispatch_idle 3).run
        [.bridge_accept (some 9) 10, .teardown 0, .idle 3]).calls 0 Op.is_close = 1 ∧
      (((sample_bridge_world.teardown 0).dispatch_idle 3).run
        [.bridge_accept (some 9) 10, .teardown 0, .idle 3]).calls 0 Op.is_unref = 1 ∧
      ∀ e ∈ (((sample_bridge_world.teardown 0).dispatch_idle 3).run
        [.bridge_accept (some 9) 10, .teardown 0, .idle 3]).ctx.idle, e.2 ≠ 0) :=
  ⟨⟨_, rfl⟩, rfl, by decide,
    (teardown_idempotent sample_bridge_world ⟨_, rfl⟩ 0 (client_data_new ⟨0, []⟩ 7 8 0).1
      rfl).1 2,
    (teardown_idempotent sample_bridge_world ⟨_, rfl⟩ 0 (client_data_new ⟨0, []⟩ 7 8 0).1
      rfl).2.1,
    (teardown_idempotent sample_bridge_world ⟨_, rfl⟩ 0 (client_data_new ⟨0, []⟩ 7 8 0).1
      rfl).2.2.1,
    (teardown_idempotent sample_bridge_world ⟨_, rfl⟩ 0 (client_data_new ⟨0, []⟩ 7 8 0).1
      rfl).2.2.2.1,
    (teardown_idempotent sample_bridge_world ⟨_, rfl⟩ 0 (client_data_new ⟨0, []⟩ 7 8 0).1
      rfl).2.2.2.2.1,
    (teardown_idempotent sample_bridge_world ⟨_, rfl⟩ 0 (client_data_new ⟨0, []⟩ 7 8 0).1
      rfl).2.2.2.2.2 3 (by decide) [.bridge_accept (some 9) 10, .teardown 0, .idle 3]⟩

/-- C10: in every reachable state of the server at most one record with
`bridge_port = -1` (a tunnel connection) is allocated, and `tun_client` is
positive exactly when there is one; `tun_server` called while `tun_client` is
positive only drops the new socket, the records and the flag are unchanged;
when the idle source of the tunnel record is dispatched the record is
destroyed and `tun_client` is 0, and the next `tun_server` call whose device
allocation succeeds allocates a tunnel record for the new socket and sets
`tun_client` to 1. -/
theorem tunnel_singleton (w : World) (hw : Reachable w) :
    (∀ p q c d, w.heap p = some c → w.heap q = some d → c.bridge_port = -1 →
      d.bridge_port = -1 → p = q) ∧
    (w.tun_client > 0 ↔ ∃ p c, w.heap p = some c ∧ c.bridge_port = -1) ∧
    (∀ client tun_fd, w.tun_client > 0 →
      tun_server w (some client) tun_fd =
        (true, { w with log := w.log ++ [(none, .g_object_unref client)] })) ∧
    (∀ id p c, (id, p) ∈ w.ctx.idle → w.heap p = some c → c.bridge_port = -1 →
      (w.dispatch_idle id).heap p = none ∧ (w.dispatch_idle id).tun_client = 0 ∧
      ∀ client tun_fd, 0 ≤ tun_fd →
        (tun_server (w.dispatch_idle id) (some client) tun_fd).2.tun_client = 1 ∧
        ∃ c2, (tun_server (w.dispatch_idle id) (some client) tun_fd).2.heap
            (w.dispatch_idle id).next_ptr = some c2 ∧
          c2.bridge_port = -1 ∧ c2.net_sock = client ∧ c2.tun_fd = tun_fd ∧
          c2.free_id = 0) := by
  obtain ⟨hpool, hsched⟩ := inv_reachable w hw
  refine ⟨?_, ?_, ?_, ?_⟩
  · intro p q c d hc hd hcb hdb
    exact hpool.port_unique p q (-1) (by simp [World.ports, hc, hcb])
      (by simp [World.ports, hd, hdb])
  · have h01 : w.tun_client > 0 ↔ w.tun_client = 1 := by
      rcases hpool.tun_flag with h0 | h1
      · rw [h0]; decide
      · rw [h1]; decide
    rw [h01, hpool.tun_live]
    constructor
    · rintro ⟨p, hpp⟩
      simp only [World.ports, Option.map_eq_some'] at hpp
      obtain ⟨c, hc, hb⟩ := hpp
      exact ⟨p, c, hc, hb⟩
    · rintro ⟨p, c, hc, hb⟩
      exact ⟨p, by simp [World.ports, hc, hb]⟩
  · intro client tun_fd hflag
    simp [tun_server, hflag]
  · intro id p c hmem hpc hcb
    obtain ⟨_, hnone, htc⟩ := destroyed_after_dispatch w hsched id p c hmem hpc
    rw [hcb] at htc
    simp only [if_true] at htc
    refine ⟨hnone, htc, ?_⟩
    intro client tun_fd hfd
    have h1 : ¬ (w.dispatch_idle id).tun_client > 0 := by rw [htc]; decide
    have h2 : ¬ tun_fd < 0 := by omega
    refine ⟨?_, (client_data_new (w.dispatch_idle id).ctx client tun_fd (-1)).1, ?_,
      rfl, rfl, rfl, rfl⟩
    · simp only [tun_server, h1, h2, if_false]
    · simp only [tun_server, h1, h2, if_false]
      exact Function.update_same _ _ _

theorem tunnel_singleton_witness :
    Reachable sample_tunnel_world ∧
    sample_tunnel_world.tun_client > 0 ∧
    (3, 0) ∈ sample_tunnel_world.ctx.idle ∧
    sample_tunnel_world.heap 0 = some
      { (client_data_new ⟨0, []⟩ 7 8 (-1)).1 with free_id := 3 } ∧
    (∃ p c, sample_tunnel_world.heap p = some c ∧ c.bridge_port = -1) ∧
    tun_server sample_tunnel_world (some 12) 13 =
      (true, { sample_tunnel_world with
        log := sample_tunnel_world.log ++ [(none, .g_object_unref 12)] }) ∧
    (sample_tunnel_world.dispatch_idle 3).heap 0 = none ∧
    (sample_tunnel_world.dispatch_idle 3).tun_client = 0 ∧
    (tun_server (sample_tunnel_world.dispatch_idle 3) (some 12) 13).2.tun_client = 1 ∧
    ∃ c2, (tun_server (sample_tunnel_world.dispatch_idle 3) (some 12) 13).2.heap
        (sample_tunnel_world.dispatch_idle 3).next_ptr = some c2 ∧
      c2.bridge_port = -1 ∧ c2.net_sock = 12 ∧ c2.tun_fd = 13 ∧ c2.free_id = 0 :=
  ⟨⟨_, rfl⟩, by decide, by decide, rfl,
    (tunnel_singleton sample_tunnel_world ⟨_, rfl⟩).2.1.mp (by decide),
    (tunnel_singleton sample_tunnel_world ⟨_, rfl⟩).2.2.1 12 13 (by decide),
    ((tunnel_singleton sample_tunnel_world ⟨_, rfl⟩).2.2.2 3 0 _ (by decide) rfl rfl).1,
    ((tunnel_singleton sample_tunnel_world ⟨_, rfl⟩).2.2.2 3 0 _ (by decide) rfl rfl).2.1,
    (((tunnel_singleton sample_tunnel_world ⟨_, rfl⟩).2.2.2 3 0 _ (by decide) rfl rfl).2.2
      12 13 (by decide)).1,
    (((tunnel_singleton sample_tunnel_world ⟨_, rfl⟩).2.2.2 3 0 _ (by decide) rfl rfl).2.2
      12 13 (by decide)).2⟩

/-! ## Theorems: the handlers always return -/

/-- With more fuel than entries in the read script `readn_generic` returns; it
never adds bytes to the script, and it uses up at least one byte when it
returns 1. -/
theorem readn_loop_some : ∀ (fuel : Nat) (env : Env) (buf : List Nat) (off e : Nat),
    env.net_in.length < fuel →
    ∃ r, readn_loop fuel env buf off e = some r ∧
      rx_bytes r.env.net_in ≤ rx_bytes env.net_in ∧
      (0 < r.ret → rx_bytes r.env.net_in < rx_bytes env.net_in) := by
  intro fuel
  induction fuel with
  | zero => intro env buf off e h; omega
  | succ fuel ih =>
    intro env buf off e h
    obtain ⟨nin, nout, tin, tout, tr⟩ := env
    simp only at h
    rw [readn_loop]
    by_cases he : e = 0
    · subst he
      simp [net_read]
    · cases nin with
      | nil => simp [net_read, he, EAGAIN, EINTR]
      | cons ev rest =>
        simp only [List.length_cons] at h
        cases ev with
        | fail x =>
          by_cases hx : x = EINTR
          · obtain ⟨r, hr, h1, h2⟩ := ih
              ⟨rest, nout, tin, tout, tr ++ [.net_read off e (-1)]⟩ buf off e
              (by simp only; omega)
            refine ⟨r, ?_, ?_, ?_⟩
            · simp only [net_read, he, if_false, hx, if_true]
              exact hr
            · simpa [rx_bytes] using h1
            · simpa [rx_bytes] using h2
          · simp only [net_read, he, if_false, hx]
            simp [rx_bytes]
        | data bs =>
          by_cases hle : bs.length ≤ e
          · by_cases hb0 : bs.length = 0
            · have hbs : bs = [] := List.length_eq_zero.mp hb0
              subst hbs
              simp [net_read, he, rx_bytes]
            · have hbs : bs ≠ [] := fun hc => hb0 (by rw [hc]; rfl)
              by_cases hsub : e - bs.length = 0
              · simp only [net_read, he, if_false, hle, if_true, hb0, hsub]
                simp [rx_bytes]
                omega
              · obtain ⟨r, hr, h1, _⟩ := ih
                  ⟨rest, nout, tin, tout, tr ++ [.net_read off e bs.length]⟩
                  (store buf off bs) (off + bs.length) (e - bs.length) (by simp only; omega)
                refine ⟨r, ?_, ?_, ?_⟩
                · simp only [net_read, he, if_false, hle, if_true, hb0, hsub]
                  exact hr
                · simp only [rx_bytes] at h1 ⊢
                  omega
                · intro _
                  simp only [rx_bytes] at h1 ⊢
                  omega
          · have hlen : (bs.take e).length = e := by simp; omega
            simp only [net_read, he, if_false, hle, hlen, Nat.sub_self, if_true]
            simp [rx_bytes]
            omega

theorem readn_generic_some (env : Env) (buf : List Nat) (off e : Nat) :
    ∃ r, readn_generic env buf off e = some r ∧
      rx_bytes r.env.net_in ≤ rx_bytes env.net_in ∧
      (0 < r.ret → rx_bytes r.env.net_in < rx_bytes env.net_in) :=
  readn_loop_some _ env buf off e (Nat.lt_succ_self _)

theorem net_header_some (p : Nat) (s : Conn) :
    ∃ st, net_header p s = some st ∧
      ∀ s1, st = .go s1 → rx_bytes s1.env.net_in ≤ rx_bytes s.env.net_in := by
  unfold net_header
  by_cases ht : s.c.net_buf_expect_type = 0
  · obtain ⟨r, hr, h1, _⟩ :=
      readn_generic_some s.env s.c.net_buf s.c.net_buf_offset s.c.net_buf_expect_len
    simp only [ht, if_true, hr]
    by_cases hret : r.ret ≤ 0
    · simp only [hret, if_true]
      by_cases hag : r.ret = -(EAGAIN : Int)
      · simp only [hag, if_true]
        exact ⟨_, rfl, fun s1 h => by cases h⟩
      · simp only [hag, if_false, net_error]
        exact ⟨_, rfl, fun s1 h => by cases h⟩
    · simp only [hret, if_false]
      refine ⟨_, rfl, ?_⟩
      intro s1 h
      cases h
      exact h1
  · simp only [ht, if_false]
    refine ⟨_, rfl, ?_⟩
    intro s1 h
    cases h
    exact le_refl _

theorem net_payload_some (p : Nat) (s : Conn) :
    ∃ st, net_payload p s = some st ∧
      ∀ s1, st = .go s1 → rx_bytes s1.env.net_in < rx_bytes s.env.net_in := by
  unfold net_payload
  by_cases ht : s.c.net_buf_expect_type ≠ 0
  · obtain ⟨r, hr, _, h2⟩ :=
      readn_generic_some s.env s.c.net_buf s.c.net_buf_offset s.c.net_buf_expect_len
    rw [if_pos ht]
    simp only [hr]
    by_cases hret : r.ret ≤ 0
    · simp only [hret, if_true]
      by_cases hag : r.ret = -(EAGAIN : Int)
      · simp only [hag, if_true]
        exact ⟨_, rfl, fun s1 h => by cases h⟩
      · simp only [hag, if_false, net_error]
        exact ⟨_, rfl, fun s1 h => by cases h⟩
    · simp only [hret, if_false]
      split
      · simp only [net_error]
        exact ⟨_, rfl, fun s1 h => by cases h⟩
      · refine ⟨_, rfl, ?_⟩
        intro s1 h
        cases h
        exact h2 (by omega)
  · rw [if_neg ht]
    exact ⟨_, rfl, fun s1 h => by cases h⟩

theorem client_net_loop_total (p : Nat) : ∀ (fuel : Nat) (s : Conn),
    rx_bytes s.env.net_in < fuel → (client_net_loop p fuel s).isSome = true := by
  intro fuel
  induction fuel with
  | zero => intro s h; omega
  | succ fuel ih =>
    intro s h
    rw [client_net_loop]
    obtain ⟨st, hst, hle⟩ := net_header_some p s
    rw [hst]
    cases st with
    | ret g s1 => rfl
    | go s1 =>
      have h1 := hle s1 rfl
      obtain ⟨st2, hst2, hlt⟩ := net_payload_some p s1
      simp only [hst2]
      cases st2 with
      | ret g s2 => rfl
      | go s2 =>
        have h2 := hlt s2 rfl
        exact ih s2 (by omega)

/-- The handler `client_net_func` always returns: its fuel never runs out. -/
theorem client_net_func_total (p : Nat) (s : Conn) : (client_net_func p s).isSome = true :=
  client_net_loop_total p _ s (Nat.lt_succ_self _)

/-- Every header above the buffer size is accepted: for header bytes `b0 b1`
with value `v > 4096`, delivered together and followed by a read that would
block, `client_net_func` returns `G_SOURCE_CONTINUE`, leaves the main context
and `free_id` alone, expects `v` payload bytes and has asked for `v` bytes at
offset 0. -/
theorem oversize_header_accepted (p : Nat) (s : Conn) (b0 b1 : Nat) (rest : List RdEv)
    (hty : s.c.net_buf_expect_type = 0) (hoff : s.c.net_buf_offset = 0)
    (hexp : s.c.net_buf_expect_len = 2)
    (hin : s.env.net_in = .data [b0, b1] :: .fail EAGAIN :: rest)
    (hv : 4096 < b0 % 256 * 256 + b1 % 256) :
    ∃ s', client_net_func p s = some (true, s') ∧
      s'.ctx = s.ctx ∧ s'.c.free_id = s.c.free_id ∧
      s'.c.net_buf_expect_type = 1 ∧ s'.c.net_buf_offset = 0 ∧
      s'.c.net_buf_expect_len = b0 % 256 * 256 + b1 % 256 ∧
      s'.c.net_buf_size = s.c.net_buf_size ∧
      net_requests s'.env.trace =
        net_requests s.env.trace ++ [(0, 2), (0, b0 % 256 * 256 + b1 % 256)] := by
  obtain ⟨⟨bp, tfd, tb, tbs, nfd, ns, nb, nbs, off, e, ty, src, tid, fid⟩, ctx,
    ⟨nin, nout, tin, tout, tr⟩⟩ := s
  simp only at hty hoff hexp hin ⊢
  subst hty hoff hexp hin
  have hR := readn_generic_full ⟨.data [b0, b1] :: .fail EAGAIN :: rest, nout, tin, tout, tr⟩
    [b0, b1] (.fail EAGAIN :: rest) nb 0 2 rfl (by omega) (by simp)
  simp at hR
  have hnt : ntohs (store nb 0 [b0, b1]) = b0 % 256 * 256 + b1 % 256 := by
    simp [store, ntohs]
  have hT := net_tail_eagain p (rx_bytes rest + 1 + 1)
    ⟨⟨bp, tfd, tb, tbs, nfd, ns, store nb 0 [b0, b1], nbs, 0, b0 % 256 * 256 + b1 % 256, 1,
      src, tid, fid⟩, ctx,
      ⟨.fail EAGAIN :: rest, nout, tin, tout, tr ++ [.net_read 0 2 2]⟩⟩
    rest (by simp) rfl (by simp only; omega)
  have hreq : ∀ (a b : List Call), net_requests (a ++ b) = net_requests a ++ net_requests b := by
    intro a b
    induction a with
    | nil => rfl
    | cons x t ih => cases x <;> simp [net_requests, ih]
  have hfuel : rx_bytes (RdEv.data [b0, b1] :: RdEv.fail EAGAIN :: rest) + 1 =
      rx_bytes rest + 1 + 2 := by
    simp [rx_bytes]; omega
  rw [client_net_func, hfuel, client_net_loop_succ]
  simp only [net_header, hR]
  simp [hnt]
  simp at hT
  rw [hT]
  simp [hreq, net_requests]

end Stun
